import Mathlib

/-!
Verification development for the TrendRadar content packing and
multi-channel delivery pipeline.

The Python sources are shallowly embedded:
* Python `str` is Lean `String`; UTF-8 encoded byte length is computed by
  `utf8Len`, and `pyEncode`/`decodeStr` model `str.encode("utf-8")` and
  `bytes.decode("utf-8")` (strict mode, rejecting surrogates, overlong
  forms and truncated sequences).
* The current wall-clock time (`get_beijing_time().strftime(...)`) is
  passed in as an explicit string parameter.
* Configuration values read from the global `CONFIG` dictionary are
  passed in as explicit record fields.
* Network transports are modelled as oracles mapping a request index to
  its outcome; each channel send function consumes such an oracle.
-/

namespace TrendRadar

/-! ## UTF-8 byte-level model -/

/-- Byte length of the UTF-8 encoding of one code point
(`len(chr(n).encode("utf-8"))`). -/
def cpLen (n : Nat) : Nat :=
  if n < 0x80 then 1 else if n < 0x800 then 2 else if n < 0x10000 then 3 else 4

/-- UTF-8 encoding of one code point, as a list of byte values. -/
def encodeCp (n : Nat) : List Nat :=
  if n < 0x80 then [n]
  else if n < 0x800 then [0xC0 + n / 0x40, 0x80 + n % 0x40]
  else if n < 0x10000 then
    [0xE0 + n / 0x1000, 0x80 + (n / 0x40) % 0x40, 0x80 + n % 0x40]
  else
    [0xF0 + n / 0x40000, 0x80 + (n / 0x1000) % 0x40, 0x80 + (n / 0x40) % 0x40,
      0x80 + n % 0x40]

def charLen (c : Char) : Nat := cpLen c.toNat

def encodeChar (c : Char) : List Nat := encodeCp c.toNat

/-- `s.encode("utf-8")` as a list of byte values. -/
def pyEncode (s : String) : List Nat := (s.data.map encodeChar).flatten

/-- `len(s.encode("utf-8"))`. -/
def utf8Len (s : String) : Nat := (s.data.map charLen).sum

theorem encodeCp_length (n : Nat) : (encodeCp n).length = cpLen n := by
  unfold encodeCp cpLen
  split_ifs <;> rfl

theorem pyEncode_length (s : String) : (pyEncode s).length = utf8Len s := by
  unfold pyEncode utf8Len
  induction s.data with
  | nil => rfl
  | cons c cs ih =>
    simp only [List.map_cons, List.flatten_cons, List.length_append, List.sum_cons, ih,
      encodeChar, encodeCp_length, charLen]

theorem utf8Len_append (s t : String) :
    utf8Len (s ++ t) = utf8Len s + utf8Len t := by
  unfold utf8Len
  rw [String.data_append, List.map_append, List.sum_append]

/-- Is `b` a UTF-8 continuation byte (`0x80 ≤ b < 0xC0`)? -/
def isContByte (b : Nat) : Bool := decide (0x80 ≤ b) && decide (b < 0xC0)

/-- One step of a strict UTF-8 decoder: consume the bytes of one code point,
returning the code point and the remaining bytes.  Mirrors the acceptance
rules of `bytes.decode("utf-8")`: continuation-byte leads, overlong
encodings, surrogate code points, code points above `0x10FFFF`, and
truncated sequences are all rejected. -/
def decodeOne : List Nat → Option (Nat × List Nat)
  | [] => none
  | b1 :: r =>
    if b1 < 0x80 then some (b1, r)
    else if b1 < 0xC2 then none
    else if b1 < 0xE0 then
      match r with
      | b2 :: r2 =>
        if isContByte b2 then some ((b1 - 0xC0) * 0x40 + (b2 - 0x80), r2) else none
      | [] => none
    else if b1 < 0xF0 then
      match r with
      | b2 :: b3 :: r3 =>
        if isContByte b2 && isContByte b3 && (b1 != 0xE0 || decide (0xA0 ≤ b2))
            && (b1 != 0xED || decide (b2 < 0xA0)) then
          some ((b1 - 0xE0) * 0x1000 + (b2 - 0x80) * 0x40 + (b3 - 0x80), r3)
        else none
      | _ => none
    else if b1 < 0xF5 then
      match r with
      | b2 :: b3 :: b4 :: r4 =>
        if isContByte b2 && isContByte b3 && isContByte b4
            && (b1 != 0xF0 || decide (0x90 ≤ b2))
            && (b1 != 0xF4 || decide (b2 < 0x90)) then
          some ((b1 - 0xF0) * 0x40000 + (b2 - 0x80) * 0x1000 + (b3 - 0x80) * 0x40 +
            (b4 - 0x80), r4)
        else none
      | _ => none
    else none

/-- Fuel-driven iteration of `decodeOne` (the fuel is an upper bound on the
number of code points; each step consumes at least one byte, so a fuel of
`bs.length` always suffices). -/
def decodeAux : Nat → List Nat → Option (List Nat)
  | _, [] => some []
  | 0, _ :: _ => none
  | fuel + 1, b :: r =>
    match decodeOne (b :: r) with
    | none => none
    | some (cp, rest) => (decodeAux fuel rest).map (cp :: ·)

/-- Strict UTF-8 decode of a byte list into code points
(`bytes.decode("utf-8")`, up to building the final string). -/
def decodeCps (bs : List Nat) : Option (List Nat) := decodeAux bs.length bs

/-- `bytes.decode("utf-8")` in strict mode, as an optional `String`. -/
def decodeStr (bs : List Nat) : Option String :=
  (decodeCps bs).map (fun cps => String.mk (cps.map Char.ofNat))

theorem encodeCp_one {b1 : Nat} (h : b1 < 0x80) : encodeCp b1 = [b1] := by
  unfold encodeCp
  rw [if_pos h]

theorem encodeCp_two {b1 b2 : Nat} (h1 : 0xC2 ≤ b1) (h2 : b1 < 0xE0)
    (hc : 0x80 ≤ b2 ∧ b2 < 0xC0) :
    encodeCp ((b1 - 0xC0) * 0x40 + (b2 - 0x80)) = [b1, b2] ∧
      Nat.isValidChar ((b1 - 0xC0) * 0x40 + (b2 - 0x80)) := by
  constructor
  · unfold encodeCp
    have hge : ¬ (b1 - 0xC0) * 0x40 + (b2 - 0x80) < 0x80 := by omega
    have hlt : (b1 - 0xC0) * 0x40 + (b2 - 0x80) < 0x800 := by omega
    rw [if_neg hge, if_pos hlt]
    have e1 : 0xC0 + ((b1 - 0xC0) * 0x40 + (b2 - 0x80)) / 0x40 = b1 := by omega
    have e2 : 0x80 + ((b1 - 0xC0) * 0x40 + (b2 - 0x80)) % 0x40 = b2 := by omega
    rw [e1, e2]
  · exact Or.inl (by omega)

theorem encodeCp_three {b1 b2 b3 : Nat} (h1 : 0xE0 ≤ b1) (h2 : b1 < 0xF0)
    (hc2 : 0x80 ≤ b2 ∧ b2 < 0xC0) (hc3 : 0x80 ≤ b3 ∧ b3 < 0xC0)
    (hov : b1 ≠ 0xE0 ∨ 0xA0 ≤ b2) (hsur : b1 ≠ 0xED ∨ b2 < 0xA0) :
    encodeCp ((b1 - 0xE0) * 0x1000 + (b2 - 0x80) * 0x40 + (b3 - 0x80)) = [b1, b2, b3] ∧
      Nat.isValidChar ((b1 - 0xE0) * 0x1000 + (b2 - 0x80) * 0x40 + (b3 - 0x80)) := by
  constructor
  · unfold encodeCp
    have hge : ¬ (b1 - 0xE0) * 0x1000 + (b2 - 0x80) * 0x40 + (b3 - 0x80) < 0x80 := by
      omega
    have hge2 : ¬ (b1 - 0xE0) * 0x1000 + (b2 - 0x80) * 0x40 + (b3 - 0x80) < 0x800 := by
      omega
    have hlt : (b1 - 0xE0) * 0x1000 + (b2 - 0x80) * 0x40 + (b3 - 0x80) < 0x10000 := by
      omega
    rw [if_neg hge, if_neg hge2, if_pos hlt]
    have e1 : 0xE0 + ((b1 - 0xE0) * 0x1000 + (b2 - 0x80) * 0x40 + (b3 - 0x80)) / 0x1000
        = b1 := by omega
    have e2 : 0x80 + (((b1 - 0xE0) * 0x1000 + (b2 - 0x80) * 0x40 + (b3 - 0x80)) / 0x40)
        % 0x40 = b2 := by omega
    have e3 : 0x80 + ((b1 - 0xE0) * 0x1000 + (b2 - 0x80) * 0x40 + (b3 - 0x80)) % 0x40
        = b3 := by omega
    rw [e1, e2, e3]
  · unfold Nat.isValidChar
    omega

theorem encodeCp_four {b1 b2 b3 b4 : Nat} (h1 : 0xF0 ≤ b1) (h2 : b1 < 0xF5)
    (hc2 : 0x80 ≤ b2 ∧ b2 < 0xC0) (hc3 : 0x80 ≤ b3 ∧ b3 < 0xC0)
    (hc4 : 0x80 ≤ b4 ∧ b4 < 0xC0)
    (hov : b1 ≠ 0xF0 ∨ 0x90 ≤ b2) (hmax : b1 ≠ 0xF4 ∨ b2 < 0x90) :
    encodeCp ((b1 - 0xF0) * 0x40000 + (b2 - 0x80) * 0x1000 + (b3 - 0x80) * 0x40 +
        (b4 - 0x80)) = [b1, b2, b3, b4] ∧
      Nat.isValidChar ((b1 - 0xF0) * 0x40000 + (b2 - 0x80) * 0x1000 + (b3 - 0x80) * 0x40 +
        (b4 - 0x80)) := by
  constructor
  · unfold encodeCp
    have hge : ¬ (b1 - 0xF0) * 0x40000 + (b2 - 0x80) * 0x1000 + (b3 - 0x80) * 0x40 +
        (b4 - 0x80) < 0x80 := by omega
    have hge2 : ¬ (b1 - 0xF0) * 0x40000 + (b2 - 0x80) * 0x1000 + (b3 - 0x80) * 0x40 +
        (b4 - 0x80) < 0x800 := by omega
    have hge3 : ¬ (b1 - 0xF0) * 0x40000 + (b2 - 0x80) * 0x1000 + (b3 - 0x80) * 0x40 +
        (b4 - 0x80) < 0x10000 := by omega
    rw [if_neg hge, if_neg hge2, if_neg hge3]
    have e1 : 0xF0 + ((b1 - 0xF0) * 0x40000 + (b2 - 0x80) * 0x1000 + (b3 - 0x80) * 0x40 +
        (b4 - 0x80)) / 0x40000 = b1 := by omega
    have e2 : 0x80 + (((b1 - 0xF0) * 0x40000 + (b2 - 0x80) * 0x1000 + (b3 - 0x80) * 0x40 +
        (b4 - 0x80)) / 0x1000) % 0x40 = b2 := by omega
    have e3 : 0x80 + (((b1 - 0xF0) * 0x40000 + (b2 - 0x80) * 0x1000 + (b3 - 0x80) * 0x40 +
        (b4 - 0x80)) / 0x40) % 0x40 = b3 := by omega
    have e4 : 0x80 + ((b1 - 0xF0) * 0x40000 + (b2 - 0x80) * 0x1000 + (b3 - 0x80) * 0x40 +
        (b4 - 0x80)) % 0x40 = b4 := by omega
    rw [e1, e2, e3, e4]
  · unfold Nat.isValidChar
    omega

theorem decodeStep_one {b1 : Nat} (h1 : b1 < 0x80) (r : List Nat) :
    encodeCp b1 ++ r = b1 :: r ∧ Nat.isValidChar b1 :=
  ⟨by rw [encodeCp_one h1]; rfl, Or.inl (by omega)⟩

theorem decodeStep_two {b1 b2 : Nat} (h2 : ¬ b1 < 0xC2) (h3 : b1 < 0xE0)
    (hc : isContByte b2 = true) (r : List Nat) :
    encodeCp ((b1 - 0xC0) * 0x40 + (b2 - 0x80)) ++ r = b1 :: b2 :: r ∧
      Nat.isValidChar ((b1 - 0xC0) * 0x40 + (b2 - 0x80)) := by
  have hcont : 0x80 ≤ b2 ∧ b2 < 0xC0 := by
    simpa [isContByte, decide_eq_true_iff] using hc
  obtain ⟨he, hv⟩ := encodeCp_two (by omega) h3 hcont
  exact ⟨by rw [he]; rfl, hv⟩

theorem decodeStep_three {b1 b2 b3 : Nat} (h3 : ¬ b1 < 0xE0) (h4 : b1 < 0xF0)
    (hc : (isContByte b2 && isContByte b3 && (b1 != 0xE0 || decide (0xA0 ≤ b2))
      && (b1 != 0xED || decide (b2 < 0xA0))) = true) (r : List Nat) :
    encodeCp ((b1 - 0xE0) * 0x1000 + (b2 - 0x80) * 0x40 + (b3 - 0x80)) ++ r
        = b1 :: b2 :: b3 :: r ∧
      Nat.isValidChar ((b1 - 0xE0) * 0x1000 + (b2 - 0x80) * 0x40 + (b3 - 0x80)) := by
  have hcond : ((0x80 ≤ b2 ∧ b2 < 0xC0) ∧ (0x80 ≤ b3 ∧ b3 < 0xC0) ∧
      (b1 ≠ 0xE0 ∨ 0xA0 ≤ b2) ∧ (b1 ≠ 0xED ∨ b2 < 0xA0)) := by
    simpa [isContByte, Bool.and_eq_true, Bool.or_eq_true, bne_iff_ne,
      decide_eq_true_iff, and_assoc] using hc
  obtain ⟨hcc2, hcc3, hov, hsur⟩ := hcond
  obtain ⟨he, hv⟩ := encodeCp_three (by omega) h4 hcc2 hcc3 hov hsur
  exact ⟨by rw [he]; rfl, hv⟩

theorem decodeStep_four {b1 b2 b3 b4 : Nat} (h4 : ¬ b1 < 0xF0) (h5 : b1 < 0xF5)
    (hc : (isContByte b2 && isContByte b3 && isContByte b4
      && (b1 != 0xF0 || decide (0x90 ≤ b2))
      && (b1 != 0xF4 || decide (b2 < 0x90))) = true) (r : List Nat) :
    encodeCp ((b1 - 0xF0) * 0x40000 + (b2 - 0x80) * 0x1000 + (b3 - 0x80) * 0x40 +
        (b4 - 0x80)) ++ r = b1 :: b2 :: b3 :: b4 :: r ∧
      Nat.isValidChar ((b1 - 0xF0) * 0x40000 + (b2 - 0x80) * 0x1000 + (b3 - 0x80) * 0x40 +
        (b4 - 0x80)) := by
  have hcond : ((0x80 ≤ b2 ∧ b2 < 0xC0) ∧ (0x80 ≤ b3 ∧ b3 < 0xC0) ∧
      (0x80 ≤ b4 ∧ b4 < 0xC0) ∧ (b1 ≠ 0xF0 ∨ 0x90 ≤ b2) ∧
      (b1 ≠ 0xF4 ∨ b2 < 0x90)) := by
    simpa [isContByte, Bool.and_eq_true, Bool.or_eq_true, bne_iff_ne,
      decide_eq_true_iff, and_assoc] using hc
  obtain ⟨hcc2, hcc3, hcc4, hov, hmax⟩ := hcond
  obtain ⟨he, hv⟩ := encodeCp_four (by omega) h5 hcc2 hcc3 hcc4 hov hmax
  exact ⟨by rw [he]; rfl, hv⟩

/-- A successful `decodeOne` step identifies the consumed bytes as the UTF-8
encoding of a valid scalar value. -/
theorem decodeOne_spec : ∀ {l : List Nat} {cp : Nat} {rest : List Nat},
    decodeOne l = some (cp, rest) →
    encodeCp cp ++ rest = l ∧ Nat.isValidChar cp := by
  intro l cp rest h
  rcases l with _ | ⟨b1, _ | ⟨b2, _ | ⟨b3, _ | ⟨b4, r⟩⟩⟩⟩
  · cases h
  · simp only [decodeOne] at h
    split_ifs at h with h1 h2 h3 h4 h5 <;> try (exact Option.noConfusion h)
    case pos =>
      simp only [Option.some.injEq, Prod.mk.injEq] at h
      obtain ⟨rfl, rfl⟩ := h
      exact decodeStep_one h1 []
  · simp only [decodeOne] at h
    split_ifs at h with h1 h2 h3 hc h4 h5 <;> try (exact Option.noConfusion h)
    · simp only [Option.some.injEq, Prod.mk.injEq] at h
      obtain ⟨rfl, rfl⟩ := h
      exact decodeStep_one h1 [b2]
    · simp only [Option.some.injEq, Prod.mk.injEq] at h
      obtain ⟨rfl, rfl⟩ := h
      exact decodeStep_two h2 h3 hc []
  · simp only [decodeOne] at h
    split_ifs at h with h1 h2 h3 hc h4 hc3 h5 <;> try (exact Option.noConfusion h)
    · simp only [Option.some.injEq, Prod.mk.injEq] at h
      obtain ⟨rfl, rfl⟩ := h
      exact decodeStep_one h1 [b2, b3]
    · simp only [Option.some.injEq, Prod.mk.injEq] at h
      obtain ⟨rfl, rfl⟩ := h
      exact decodeStep_two h2 h3 hc [b3]
    · simp only [Option.some.injEq, Prod.mk.injEq] at h
      obtain ⟨rfl, rfl⟩ := h
      exact decodeStep_three h3 h4 hc3 []
  · simp only [decodeOne] at h
    split_ifs at h with h1 h2 h3 hc h4 hc3 h5 hc4 <;> try (exact Option.noConfusion h)
    · simp only [Option.some.injEq, Prod.mk.injEq] at h
      obtain ⟨rfl, rfl⟩ := h
      exact decodeStep_one h1 (b2 :: b3 :: b4 :: r)
    · simp only [Option.some.injEq, Prod.mk.injEq] at h
      obtain ⟨rfl, rfl⟩ := h
      exact decodeStep_two h2 h3 hc (b3 :: b4 :: r)
    · simp only [Option.some.injEq, Prod.mk.injEq] at h
      obtain ⟨rfl, rfl⟩ := h
      exact decodeStep_three h3 h4 hc3 (b4 :: r)
    · simp only [Option.some.injEq, Prod.mk.injEq] at h
      obtain ⟨rfl, rfl⟩ := h
      exact decodeStep_four h4 h5 hc4 r

/-- Decoding is a right inverse of encoding: a successful strict decode of a
byte list re-encodes to exactly that byte list, and every decoded code point
is a valid Unicode scalar value. -/
theorem decodeAux_encode : ∀ (fuel : Nat) {bs cps : List Nat},
    decodeAux fuel bs = some cps →
    ((cps.map encodeCp).flatten = bs ∧ ∀ cp ∈ cps, Nat.isValidChar cp) := by
  intro fuel
  induction fuel with
  | zero =>
    intro bs cps h
    cases bs with
    | nil =>
      simp only [decodeAux, Option.some.injEq] at h
      subst h
      exact ⟨rfl, by simp⟩
    | cons b r =>
      simp only [decodeAux] at h
      exact Option.noConfusion h
  | succ fuel ih =>
    intro bs cps h
    cases bs with
    | nil =>
      simp only [decodeAux, Option.some.injEq] at h
      subst h
      exact ⟨rfl, by simp⟩
    | cons b r =>
      simp only [decodeAux] at h
      cases hone : decodeOne (b :: r) with
      | none => rw [hone] at h; cases h
      | some pr =>
        obtain ⟨cp, rest⟩ := pr
        rw [hone] at h
        simp only at h
        obtain ⟨cs, hd, rfl⟩ := Option.map_eq_some'.mp h
        obtain ⟨henc, hval⟩ := ih hd
        obtain ⟨hbytes, hvcp⟩ := decodeOne_spec hone
        refine ⟨?_, ?_⟩
        · simp only [List.map_cons, List.flatten_cons, henc, hbytes]
        · intro c hcm
          rcases List.mem_cons.mp hcm with rfl | hm
          · exact hvcp
          · exact hval c hm

theorem decodeCps_encode {bs cps : List Nat} (h : decodeCps bs = some cps) :
    ((cps.map encodeCp).flatten = bs ∧ ∀ cp ∈ cps, Nat.isValidChar cp) :=
  decodeAux_encode bs.length h

theorem toNat_ofNat_valid {n : Nat} (h : n.isValidChar) :
    (Char.ofNat n).toNat = n := by
  simp only [Char.ofNat, dif_pos h, Char.ofNatAux, Char.toNat, UInt32.toNat]
  simp [BitVec.toNat_ofNatLt]

/-- A successful strict decode yields a string that re-encodes to the input
bytes. -/
theorem pyEncode_decodeStr {bs : List Nat} {s : String}
    (h : decodeStr bs = some s) : pyEncode s = bs := by
  unfold decodeStr at h
  obtain ⟨cps, hd, rfl⟩ := Option.map_eq_some'.mp h
  obtain ⟨henc, hval⟩ := decodeCps_encode hd
  unfold pyEncode
  show ((cps.map Char.ofNat).map encodeChar).flatten = bs
  rw [List.map_map]
  calc ((cps.map (encodeChar ∘ Char.ofNat))).flatten
      = ((cps.map encodeCp)).flatten := by
        congr 1
        apply List.map_congr_left
        intro cp hcp
        show encodeCp (Char.ofNat cp).toNat = encodeCp cp
        rw [toNat_ofNat_valid (hval cp hcp)]
    _ = bs := henc

theorem utf8Len_decodeStr {bs : List Nat} {s : String}
    (h : decodeStr bs = some s) : utf8Len s = bs.length := by
  rw [← pyEncode_length, pyEncode_decodeStr h]

/-! ## Python text utilities (`utils/text.py` and `str` methods) -/

/-- Python whitespace for `str.strip()` / regex `\s` (ASCII part). -/
def pyIsSpace (c : Char) : Bool :=
  c = ' ' || c = '\t' || c = '\n' || c = '\r' || c = '\x0b' || c = '\x0c'

/-- `str.strip()`: remove leading and trailing whitespace. -/
def pyStrip (s : String) : String :=
  String.mk (((s.data.dropWhile pyIsSpace).reverse.dropWhile pyIsSpace).reverse)

/-- Collapse every run of whitespace into a single space
(`re.sub(r"\s+", " ", ...)`). -/
def squeezeWsAux : Bool → List Char → List Char
  | _, [] => []
  | prevWs, c :: cs =>
    if pyIsSpace c then
      if prevWs then squeezeWsAux true cs else ' ' :: squeezeWsAux true cs
    else c :: squeezeWsAux false cs

/-- `clean_title` from `utils/text.py`: newlines and carriage returns become
spaces, whitespace runs collapse to one space, then strip. -/
def clean_title (title : String) : String :=
  let replaced := title.data.map (fun c => if c = '\n' || c = '\r' then ' ' else c)
  pyStrip (String.mk (squeezeWsAux false replaced))

/-- `html_escape` from `utils/text.py` (chained `str.replace` calls; the
replacement strings never contain a character replaced later, so the chain
acts independently on each source character). -/
def html_escape (text : String) : String :=
  String.join (text.data.map (fun c =>
    if c = '&' then "&amp;"
    else if c = '<' then "&lt;"
    else if c = '>' then "&gt;"
    else if c.toNat = 34 then "&quot;"
    else if c.toNat = 39 then "&#x27;"
    else String.mk [c]))

/-- Worker for `pySplit`; the fuel is an iteration bound (one unit per
consumed character suffices since the separator is nonempty). -/
def splitOnListAux (sep : List Char) : Nat → List Char → List Char → List (List Char)
  | _, acc, [] => [acc.reverse]
  | 0, acc, cs => [acc.reverse ++ cs]
  | fuel + 1, acc, c :: cs =>
    if sep.isPrefixOf (c :: cs) then
      acc.reverse :: splitOnListAux sep fuel [] ((c :: cs).drop sep.length)
    else
      splitOnListAux sep fuel (c :: acc) cs

/-- Python `s.split(sep)` for a nonempty separator string. -/
def pySplit (s sep : String) : List String :=
  if sep.data = [] then [s]
  else (splitOnListAux sep.data (s.data.length + 1) [] s.data).map String.mk

/-! ## Account resolver (`config/loader.py`) -/

/-- `parse_multi_account_config` from `config/loader.py`. -/
def parse_multi_account_config (config_value : String)
    (separator : String := ";") : List String :=
  if config_value = "" then []
  else
    let accounts := (pySplit config_value separator).map pyStrip
    if accounts.all (fun a => a = "") then [] else accounts

/-- `validate_paired_configs` from `config/loader.py`.  The `configs`
dictionary is modelled as an association list in insertion order; the
`channel_name` argument is only used for logging in the source. -/
def validate_paired_configs (configs : List (String × List String))
    (channel_name : String) (required_keys : Option (List String) := none) :
    Bool × Nat :=
  let non_empty_configs := configs.filter (fun kv : String × List String => !kv.2.isEmpty)
  if non_empty_configs.isEmpty then (true, 0)
  else
    let requiredMissing :=
      match required_keys with
      | none => false
      | some req =>
        req.any (fun k =>
          !(non_empty_configs.map (fun kv : String × List String => kv.1)).contains k)
    if requiredMissing then (true, 0)
    else
      let lengths := non_empty_configs.map (fun kv : String × List String => kv.2.length)
      let unique_lengths := lengths.dedup
      if 1 < unique_lengths.length then (false, 0)
      else (true, unique_lengths.headD 0)

/-- `limit_accounts` from `config/loader.py`. -/
def limit_accounts (accounts : List String) (max_count : Nat)
    (channel_name : String) : List String :=
  if max_count < accounts.length then accounts.take max_count else accounts

/-- `get_account_at_index` from `config/loader.py`. -/
def get_account_at_index (accounts : List String) (index : Nat)
    (dflt : String := "") : String :=
  if index < accounts.length then
    if accounts.getD index "" ≠ "" then accounts.getD index "" else dflt
  else dflt

/-! ## Data model -/

/-- Channel/markup identifier (`format_type` / `platform` strings in the
source).  `weworkText` is the `"wework_text"` format used only for batch
markers; `html` only occurs in the title formatter. -/
inductive Platform where
  | feishu
  | dingtalk
  | wework
  | bark
  | telegram
  | ntfy
  | slack
  | weworkText
  | html
deriving DecidableEq

/-- One news reference (`title_data` dictionary). -/
structure TitleData where
  title : String
  source_name : String
  url : String
  mobile_url : String
  ranks : List Nat
  rank_threshold : Nat
  time_display : String
  count : Nat
  is_new : Bool
deriving DecidableEq

/-- One keyword group of the stats section (`stat` dictionary). -/
structure StatItem where
  word : String
  count : Nat
  titles : List TitleData
deriving DecidableEq

/-- One source group of newly appeared titles (`source_data` dictionary). -/
structure SourceGroup where
  source_name : String
  titles : List TitleData
deriving DecidableEq

/-- The report payload handed to the packing pipeline (`report_data`). -/
structure ReportData where
  stats : List StatItem
  new_titles : List SourceGroup
  failed_ids : List String
  total_new_count : Nat
deriving DecidableEq

/-- Report mode tag (`mode` string, one of `daily`/`current`/`incremental`). -/
inductive Mode where
  | daily
  | current
  | incremental
deriving DecidableEq

/-- Version-update notice (`update_info` dictionary). -/
structure UpdateInfo where
  remote_version : String
  current_version : String
deriving DecidableEq

/-- The `CONFIG` values read by the packer. -/
structure PackCfg where
  feishu_message_separator : String
  reverse_content_order : Bool
deriving DecidableEq

def dTitle : TitleData :=
  { title := "", source_name := "", url := "", mobile_url := "", ranks := [],
    rank_threshold := 0, time_display := "", count := 0, is_new := false }

def dStat : StatItem := { word := "", count := 0, titles := [] }

def dSrc : SourceGroup := { source_name := "", titles := [] }

/-! ## Formatter (`reporting/formatters.py`) -/

/-- Modelled from the spec: `processing/stats.py` (which defines
`format_rank_display`) is not under `src/`.  Per the spec the formatter
renders "a rank badge (bold/coded/colored depending on dialect and whether
the minimum observed rank is at or above a highlight threshold)"; an empty
rank list yields no badge, and the badge text shows the minimum (or
min-max range) of the observed ranks. -/
def format_rank_display (ranks : List Nat) (rank_threshold : Nat)
    (platform : Platform) : String :=
  match ranks with
  | [] => ""
  | r :: rs =>
    let mn := rs.foldl Nat.min r
    let mx := rs.foldl Nat.max r
    let txt := if mn = mx then toString mn else toString mn ++ "-" ++ toString mx
    let hot := decide (mn ≤ rank_threshold)
    match platform with
    | .feishu => if hot then "<font color='red'>[" ++ txt ++ "]</font>"
        else "[" ++ txt ++ "]"
    | .telegram => if hot then "<code>[" ++ txt ++ "]</code>" else "[" ++ txt ++ "]"
    | .slack => if hot then "*[" ++ txt ++ "]*" else "[" ++ txt ++ "]"
    | .html => if hot then "<strong>[" ++ txt ++ "]</strong>" else "[" ++ txt ++ "]"
    | _ => if hot then "**[" ++ txt ++ "]**" else "[" ++ txt ++ "]"

/-- `format_title_for_platform` from `reporting/formatters.py`. -/
def format_title_for_platform (platform : Platform) (title_data : TitleData)
    (show_source : Bool := true) : String :=
  let rank_display := format_rank_display title_data.ranks title_data.rank_threshold
    platform
  let link_url := if title_data.mobile_url ≠ "" then title_data.mobile_url
    else title_data.url
  let cleaned_title := clean_title title_data.title
  match platform with
  | .feishu =>
    let formatted_title := if link_url ≠ "" then
        "[" ++ cleaned_title ++ "](" ++ link_url ++ ")"
      else cleaned_title
    let titleMark := if title_data.is_new then "🆕 " else ""
    let result := if show_source then
        "<font color='grey'>[" ++ title_data.source_name ++ "]</font> " ++ titleMark ++
          formatted_title
      else titleMark ++ formatted_title
    let result := if rank_display ≠ "" then result ++ " " ++ rank_display else result
    let result := if title_data.time_display ≠ "" then
        result ++ " <font color='grey'>- " ++ title_data.time_display ++ "</font>"
      else result
    if 1 < title_data.count then
      result ++ " <font color='green'>(" ++ toString title_data.count ++ "次)</font>"
    else result
  | .dingtalk =>
    let formatted_title := if link_url ≠ "" then
        "[" ++ cleaned_title ++ "](" ++ link_url ++ ")"
      else cleaned_title
    let titleMark := if title_data.is_new then "🆕 " else ""
    let result := if show_source then
        "[" ++ title_data.source_name ++ "] " ++ titleMark ++ formatted_title
      else titleMark ++ formatted_title
    let result := if rank_display ≠ "" then result ++ " " ++ rank_display else result
    let result := if title_data.time_display ≠ "" then
        result ++ " - " ++ title_data.time_display
      else result
    if 1 < title_data.count then result ++ " (" ++ toString title_data.count ++ "次)"
    else result
  | .wework | .bark =>
    let formatted_title := if link_url ≠ "" then
        "[" ++ cleaned_title ++ "](" ++ link_url ++ ")"
      else cleaned_title
    let titleMark := if title_data.is_new then "🆕 " else ""
    let result := if show_source then
        "[" ++ title_data.source_name ++ "] " ++ titleMark ++ formatted_title
      else titleMark ++ formatted_title
    let result := if rank_display ≠ "" then result ++ " " ++ rank_display else result
    let result := if title_data.time_display ≠ "" then
        result ++ " - " ++ title_data.time_display
      else result
    if 1 < title_data.count then result ++ " (" ++ toString title_data.count ++ "次)"
    else result
  | .telegram =>
    let formatted_title := if link_url ≠ "" then
        "<a href=" ++ "\u0022" ++ link_url ++ "\u0022" ++ ">" ++
          html_escape cleaned_title ++ "</a>"
      else cleaned_title
    let titleMark := if title_data.is_new then "🆕 " else ""
    let result := if show_source then
        "[" ++ title_data.source_name ++ "] " ++ titleMark ++ formatted_title
      else titleMark ++ formatted_title
    let result := if rank_display ≠ "" then result ++ " " ++ rank_display else result
    let result := if title_data.time_display ≠ "" then
        result ++ " <code>- " ++ title_data.time_display ++ "</code>"
      else result
    if 1 < title_data.count then
      result ++ " <code>(" ++ toString title_data.count ++ "次)</code>"
    else result
  | .ntfy =>
    let formatted_title := if link_url ≠ "" then
        "[" ++ cleaned_title ++ "](" ++ link_url ++ ")"
      else cleaned_title
    let titleMark := if title_data.is_new then "🆕 " else ""
    let result := if show_source then
        "[" ++ title_data.source_name ++ "] " ++ titleMark ++ formatted_title
      else titleMark ++ formatted_title
    let result := if rank_display ≠ "" then result ++ " " ++ rank_display else result
    let result := if title_data.time_display ≠ "" then
        result ++ " `- " ++ title_data.time_display ++ "`"
      else result
    if 1 < title_data.count then result ++ " `(" ++ toString title_data.count ++ "次)`"
    else result
  | .slack =>
    let formatted_title := if link_url ≠ "" then
        "<" ++ link_url ++ "|" ++ cleaned_title ++ ">"
      else cleaned_title
    let titleMark := if title_data.is_new then "🆕 " else ""
    let result := if show_source then
        "[" ++ title_data.source_name ++ "] " ++ titleMark ++ formatted_title
      else titleMark ++ formatted_title
    let rank_display := format_rank_display title_data.ranks title_data.rank_threshold
      .slack
    let result := if rank_display ≠ "" then result ++ " " ++ rank_display else result
    let result := if title_data.time_display ≠ "" then
        result ++ " `- " ++ title_data.time_display ++ "`"
      else result
    if 1 < title_data.count then result ++ " `(" ++ toString title_data.count ++ "次)`"
    else result
  | .html =>
    let rank_display := format_rank_display title_data.ranks title_data.rank_threshold
      .html
    let escaped_title := html_escape cleaned_title
    let escaped_source_name := html_escape title_data.source_name
    let formatted_title := if link_url ≠ "" then
        "[" ++ escaped_source_name ++ "] <a href=" ++ "\u0022" ++
          html_escape link_url ++ "\u0022" ++ " target=" ++ "\u0022" ++ "_blank" ++
          "\u0022" ++ " class=" ++ "\u0022" ++ "news-link" ++ "\u0022" ++ ">" ++
          escaped_title ++ "</a>"
      else
        "[" ++ escaped_source_name ++ "] <span class=" ++ "\u0022" ++ "no-link" ++
          "\u0022" ++ ">" ++ escaped_title ++ "</span>"
    let formatted_title := if rank_display ≠ "" then
        formatted_title ++ " " ++ rank_display
      else formatted_title
    let formatted_title := if title_data.time_display ≠ "" then
        formatted_title ++ " <font color='grey'>- " ++ html_escape title_data.time_display
          ++ "</font>"
      else formatted_title
    let formatted_title := if 1 < title_data.count then
        formatted_title ++ " <font color='green'>(" ++ toString title_data.count ++
          "次)</font>"
      else formatted_title
    if title_data.is_new then
      "<div class='new-title'>🆕 " ++ formatted_title ++ "</div>"
    else formatted_title
  | _ => cleaned_title

/-! ## Content packer (`reporting/batch_utils.py`, `split_content_into_batches`)

The packer is embedded at the granularity of the strings the source
concatenates ("pieces").  A batch is a list of pieces; its payload string is
the concatenation of the rendered pieces, and every byte-size comparison in
the source is computed on the rendered pieces exactly as the source computes
it on the concatenated string (UTF-8 length is additive under
concatenation). -/

/-- Rendering context: the report, format type, configuration and
formatted current time, fixed for one `split_content_into_batches` call. -/
structure Ctx where
  rd : ReportData
  ft : Platform
  cfg : PackCfg
  nowStr : String
  update_info : Option UpdateInfo
  mode : Mode
deriving DecidableEq

/-- `total_titles = sum(len(stat["titles"]) for stat in stats if stat["count"] > 0)`. -/
def totalTitles (rd : ReportData) : Nat :=
  (rd.stats.map (fun s => if 0 < s.count then s.titles.length else 0)).sum

/-- The mode-specific "no matching results" sentence. -/
def modeText : Mode → String
  | .incremental => "增量模式下暂无新增匹配的热点词汇"
  | .current => "当前榜单模式下暂无匹配的热点词汇"
  | .daily => "暂无匹配的热点词汇"

def base_header (ft : Platform) (total : Nat) (nowStr : String) : String :=
  match ft with
  | .wework | .bark => "**总新闻数：** " ++ toString total ++ "\n\n\n\n"
  | .telegram => "总新闻数： " ++ toString total ++ "\n\n"
  | .ntfy => "**总新闻数：** " ++ toString total ++ "\n\n"
  | .feishu => ""
  | .dingtalk =>
    "**总新闻数：** " ++ toString total ++ "\n\n" ++ "**时间：** " ++ nowStr ++
      "\n\n" ++ "**类型：** 热点分析报告\n\n" ++ "---\n\n"
  | .slack => "*总新闻数：* " ++ toString total ++ "\n\n"
  | _ => ""

def base_footer (ft : Platform) (nowStr : String) (ui : Option UpdateInfo) : String :=
  match ft with
  | .wework | .bark =>
    let s := "\n\n\n> 更新时间：" ++ nowStr
    match ui with
    | some u => s ++ "\n> TrendRadar 发现新版本 **" ++ u.remote_version ++ "**，当前 **"
        ++ u.current_version ++ "**"
    | none => s
  | .telegram =>
    let s := "\n\n更新时间：" ++ nowStr
    match ui with
    | some u => s ++ "\nTrendRadar 发现新版本 " ++ u.remote_version ++ "，当前 " ++
        u.current_version
    | none => s
  | .ntfy =>
    let s := "\n\n> 更新时间：" ++ nowStr
    match ui with
    | some u => s ++ "\n> TrendRadar 发现新版本 **" ++ u.remote_version ++ "**，当前 **"
        ++ u.current_version ++ "**"
    | none => s
  | .feishu =>
    let s := "\n\n<font color='grey'>更新时间：" ++ nowStr ++ "</font>"
    match ui with
    | some u => s ++ "\n<font color='grey'>TrendRadar 发现新版本 " ++ u.remote_version
        ++ "，当前 " ++ u.current_version ++ "</font>"
    | none => s
  | .dingtalk =>
    let s := "\n\n> 更新时间：" ++ nowStr
    match ui with
    | some u => s ++ "\n> TrendRadar 发现新版本 **" ++ u.remote_version ++ "**，当前 **"
        ++ u.current_version ++ "**"
    | none => s
  | .slack =>
    let s := "\n\n_更新时间：" ++ nowStr ++ "_"
    match ui with
    | some u => s ++ "\n_TrendRadar 发现新版本 *" ++ u.remote_version ++ "*，当前 *" ++
        u.current_version ++ "_"
    | none => s
  | _ => ""

def stats_header_str (ft : Platform) (hasStats : Bool) : String :=
  if !hasStats then ""
  else match ft with
  | .wework | .bark => "📊 **热点词汇统计**\n\n"
  | .telegram => "📊 热点词汇统计\n\n"
  | .ntfy => "📊 **热点词汇统计**\n\n"
  | .feishu => "📊 **热点词汇统计**\n\n"
  | .dingtalk => "📊 **热点词汇统计**\n\n"
  | .slack => "📊 *热点词汇统计*\n\n"
  | _ => ""

def sequence_display (i total : Nat) : String :=
  "[" ++ toString (i + 1) ++ "/" ++ toString total ++ "]"

def word_header_str (ft : Platform) (i total : Nat) (word : String) (count : Nat) :
    String :=
  let sd := sequence_display i total
  match ft with
  | .wework | .bark | .ntfy | .dingtalk =>
    if 10 ≤ count then
      "🔥 " ++ sd ++ " **" ++ word ++ "** : **" ++ toString count ++ "** 条\n\n"
    else if 5 ≤ count then
      "📈 " ++ sd ++ " **" ++ word ++ "** : **" ++ toString count ++ "** 条\n\n"
    else "📌 " ++ sd ++ " **" ++ word ++ "** : " ++ toString count ++ " 条\n\n"
  | .telegram =>
    if 10 ≤ count then "🔥 " ++ sd ++ " " ++ word ++ " : " ++ toString count ++ " 条\n\n"
    else if 5 ≤ count then
      "📈 " ++ sd ++ " " ++ word ++ " : " ++ toString count ++ " 条\n\n"
    else "📌 " ++ sd ++ " " ++ word ++ " : " ++ toString count ++ " 条\n\n"
  | .feishu =>
    if 10 ≤ count then
      "🔥 <font color='grey'>" ++ sd ++ "</font> **" ++ word ++
        "** : <font color='red'>" ++ toString count ++ "</font> 条\n\n"
    else if 5 ≤ count then
      "📈 <font color='grey'>" ++ sd ++ "</font> **" ++ word ++
        "** : <font color='orange'>" ++ toString count ++ "</font> 条\n\n"
    else
      "📌 <font color='grey'>" ++ sd ++ "</font> **" ++ word ++ "** : " ++
        toString count ++ " 条\n\n"
  | .slack =>
    if 10 ≤ count then
      "🔥 " ++ sd ++ " *" ++ word ++ "* : *" ++ toString count ++ "* 条\n\n"
    else if 5 ≤ count then
      "📈 " ++ sd ++ " *" ++ word ++ "* : *" ++ toString count ++ "* 条\n\n"
    else "📌 " ++ sd ++ " *" ++ word ++ "* : " ++ toString count ++ " 条\n\n"
  | _ => ""

/-- Per-format formatting of a stats-section news item (the source repeats
the same `format_title_for_platform` dispatch for the first and for the
remaining items; unknown format types fall back to the raw title). -/
def statsTitleFmt (ft : Platform) (t : TitleData) : String :=
  match ft with
  | .wework | .bark => format_title_for_platform .wework t true
  | .telegram => format_title_for_platform .telegram t true
  | .ntfy => format_title_for_platform .ntfy t true
  | .feishu => format_title_for_platform .feishu t true
  | .dingtalk => format_title_for_platform .dingtalk t true
  | .slack => format_title_for_platform .slack t true
  | _ => t.title

/-- `first_news_line` of a stats group. -/
def statsFirstLine (ft : Platform) (titles : List TitleData) : String :=
  match titles with
  | [] => ""
  | t :: _ =>
    "  1. " ++ statsTitleFmt ft t ++ "\n" ++ (if 1 < titles.length then "\n" else "")

/-- `news_line` of the `j`-th (0-based, `j ≥ 1`) item of a stats group. -/
def statsItemLine (ft : Platform) (j : Nat) (titles : List TitleData) : String :=
  "  " ++ toString (j + 1) ++ ". " ++ statsTitleFmt ft (titles.getD j dTitle) ++ "\n"
    ++ (if j < titles.length - 1 then "\n" else "")

def stats_separator (ft : Platform) (fsep : String) : String :=
  match ft with
  | .wework | .bark => "\n\n\n\n"
  | .telegram => "\n\n"
  | .ntfy => "\n\n"
  | .feishu => "\n" ++ fsep ++ "\n\n"
  | .dingtalk => "\n---\n\n"
  | .slack => "\n\n"
  | _ => ""

def new_header_str (ft : Platform) (totalNew : Nat) (fsep : String) : String :=
  match ft with
  | .wework | .bark =>
    "\n\n\n\n🆕 **本次新增热点新闻** (共 " ++ toString totalNew ++ " 条)\n\n"
  | .telegram => "\n\n🆕 本次新增热点新闻 (共 " ++ toString totalNew ++ " 条)\n\n"
  | .ntfy => "\n\n🆕 **本次新增热点新闻** (共 " ++ toString totalNew ++ " 条)\n\n"
  | .feishu =>
    "\n" ++ fsep ++ "\n\n🆕 **本次新增热点新闻** (共 " ++ toString totalNew ++
      " 条)\n\n"
  | .dingtalk =>
    "\n---\n\n🆕 **本次新增热点新闻** (共 " ++ toString totalNew ++ " 条)\n\n"
  | .slack => "\n\n🆕 *本次新增热点新闻* (共 " ++ toString totalNew ++ " 条)\n\n"
  | _ => ""

def source_header_str (ft : Platform) (name : String) (cnt : Nat) : String :=
  match ft with
  | .wework | .bark => "**" ++ name ++ "** (" ++ toString cnt ++ " 条):\n\n"
  | .telegram => name ++ " (" ++ toString cnt ++ " 条):\n\n"
  | .ntfy => "**" ++ name ++ "** (" ++ toString cnt ++ " 条):\n\n"
  | .feishu => "**" ++ name ++ "** (" ++ toString cnt ++ " 条):\n\n"
  | .dingtalk => "**" ++ name ++ "** (" ++ toString cnt ++ " 条):\n\n"
  | .slack => "*" ++ name ++ "* (" ++ toString cnt ++ " 条):\n\n"
  | _ => ""

/-- Formatting of the first new title of a source group (the source copies
the dictionary, clears `is_new`, passes `show_source=False`; `ntfy` is
absent from the dispatch and falls back to the raw title). -/
def srcFirstFmt (ft : Platform) (t0 : TitleData) : String :=
  let t := { t0 with is_new := false }
  match ft with
  | .wework | .bark => format_title_for_platform .wework t false
  | .telegram => format_title_for_platform .telegram t false
  | .feishu => format_title_for_platform .feishu t false
  | .dingtalk => format_title_for_platform .dingtalk t false
  | .slack => format_title_for_platform .slack t false
  | _ => t.title

/-- Formatting of a remaining new title (here `bark` is also absent from
the dispatch and falls back to the raw title). -/
def srcItemFmt (ft : Platform) (t0 : TitleData) : String :=
  let t := { t0 with is_new := false }
  match ft with
  | .wework => format_title_for_platform .wework t false
  | .telegram => format_title_for_platform .telegram t false
  | .feishu => format_title_for_platform .feishu t false
  | .dingtalk => format_title_for_platform .dingtalk t false
  | .slack => format_title_for_platform .slack t false
  | _ => t.title

def srcFirstLine (ft : Platform) (titles : List TitleData) : String :=
  match titles with
  | [] => ""
  | t :: _ => "  1. " ++ srcFirstFmt ft t ++ "\n"

def srcItemLine (ft : Platform) (j : Nat) (titles : List TitleData) : String :=
  "  " ++ toString (j + 1) ++ ". " ++ srcItemFmt ft (titles.getD j dTitle) ++ "\n"

def failed_header_str (ft : Platform) (fsep : String) : String :=
  match ft with
  | .wework => "\n\n\n\n⚠️ **数据获取失败的平台：**\n\n"
  | .telegram => "\n\n⚠️ 数据获取失败的平台：\n\n"
  | .ntfy => "\n\n⚠️ **数据获取失败的平台：**\n\n"
  | .feishu => "\n" ++ fsep ++ "\n\n⚠️ **数据获取失败的平台：**\n\n"
  | .dingtalk => "\n---\n\n⚠️ **数据获取失败的平台：**\n\n"
  | _ => ""

def failed_line_str (ft : Platform) (idValue : String) : String :=
  match ft with
  | .feishu => "  • <font color='red'>" ++ idValue ++ "</font>\n"
  | .dingtalk => "  • **" ++ idValue ++ "**\n"
  | _ => "  • " ++ idValue ++ "\n"

/-- One piece of batch content.  Indices refer into the report lists; the
rendered string of each piece is computed by `pieceStr`. -/
inductive Piece where
  | baseHeader
  | simpleContent
  | statsHeader
  | wordHeader (i : Nat)
  | wordFirst (i : Nat)
  | wordItem (i j : Nat)
  | statsSep
  | newHeader
  | srcHeader (i : Nat)
  | srcFirst (i : Nat)
  | srcItem (i j : Nat)
  | srcEnd
  | failedHeader
  | failedLine (i : Nat)
  | footer
deriving DecidableEq

def pieceStr (ctx : Ctx) : Piece → String
  | .baseHeader => base_header ctx.ft (totalTitles ctx.rd) ctx.nowStr
  | .simpleContent => "📭 " ++ modeText ctx.mode ++ "\n\n"
  | .statsHeader => stats_header_str ctx.ft (!ctx.rd.stats.isEmpty)
  | .wordHeader i =>
    word_header_str ctx.ft i ctx.rd.stats.length (ctx.rd.stats.getD i dStat).word
      (ctx.rd.stats.getD i dStat).count
  | .wordFirst i => statsFirstLine ctx.ft (ctx.rd.stats.getD i dStat).titles
  | .wordItem i j => statsItemLine ctx.ft j (ctx.rd.stats.getD i dStat).titles
  | .statsSep => stats_separator ctx.ft ctx.cfg.feishu_message_separator
  | .newHeader =>
    new_header_str ctx.ft ctx.rd.total_new_count ctx.cfg.feishu_message_separator
  | .srcHeader i =>
    source_header_str ctx.ft (ctx.rd.new_titles.getD i dSrc).source_name
      (ctx.rd.new_titles.getD i dSrc).titles.length
  | .srcFirst i => srcFirstLine ctx.ft (ctx.rd.new_titles.getD i dSrc).titles
  | .srcItem i j => srcItemLine ctx.ft j (ctx.rd.new_titles.getD i dSrc).titles
  | .srcEnd => "\n"
  | .failedHeader => failed_header_str ctx.ft ctx.cfg.feishu_message_separator
  | .failedLine i => failed_line_str ctx.ft (ctx.rd.failed_ids.getD i "")
  | .footer => base_footer ctx.ft ctx.nowStr ctx.update_info

/-- UTF-8 byte length of a rendered piece. -/
def plen (ctx : Ctx) (p : Piece) : Nat := utf8Len (pieceStr ctx p)

/-- UTF-8 byte length of a batch (additivity of `utf8Len` over concatenation
makes this the length of the concatenated payload). -/
def lenOf (ctx : Ctx) (l : List Piece) : Nat := (l.map (plen ctx)).sum

/-- Mutable state of the packing loop: the current buffer, the
`current_batch_has_content` flag, and the batches flushed so far. -/
structure PackSt where
  cur : List Piece
  hasContent : Bool
  batches : List (List Piece)
deriving DecidableEq

/-- Flush helper: `if current_batch_has_content: batches.append(current_batch
+ base_footer)`. -/
def flushB (st : PackSt) : List (List Piece) :=
  if st.hasContent then st.batches ++ [st.cur ++ [Piece.footer]] else st.batches

/-- The recurring source test `len(test_content.encode("utf-8")) +
len(base_footer.encode("utf-8")) >= max_bytes`. -/
def overflows (ctx : Ctx) (maxB : Int) (test : List Piece) : Prop :=
  (lenOf ctx test : Int) + (plen ctx Piece.footer : Int) ≥ maxB

instance (ctx : Ctx) (maxB : Int) (test : List Piece) :
    Decidable (overflows ctx maxB test) := by
  unfold overflows
  infer_instance

/-- Inner loop over the remaining items of a stats group (`for j in
range(start_index, len(stat["titles"]))`). -/
def statsItemsLoop (ctx : Ctx) (maxB : Int) (i : Nat) :
    List TitleData → Nat → PackSt → PackSt
  | [], _, st => st
  | _ :: ts, j, st =>
    let line := Piece.wordItem i j
    let test := st.cur ++ [line]
    if overflows ctx maxB test then
      statsItemsLoop ctx maxB i ts (j + 1)
        { cur := [Piece.baseHeader, Piece.statsHeader, Piece.wordHeader i, line],
          hasContent := true, batches := flushB st }
    else
      statsItemsLoop ctx maxB i ts (j + 1)
        { cur := test, hasContent := true, batches := st.batches }

/-- One iteration of the stats-group loop: the atomic
heading+first-item step, the remaining items, and the separator attempt. -/
def statsGroupStep (ctx : Ctx) (maxB : Int) (stat : StatItem) (i : Nat)
    (st : PackSt) : PackSt :=
  let unit := [Piece.wordHeader i, Piece.wordFirst i]
  let test := st.cur ++ unit
  let st1 : PackSt :=
    if overflows ctx maxB test then
      { cur := [Piece.baseHeader, Piece.statsHeader] ++ unit, hasContent := true,
        batches := flushB st }
    else { cur := test, hasContent := true, batches := st.batches }
  let st2 := statsItemsLoop ctx maxB i (stat.titles.drop 1) 1 st1
  if i < ctx.rd.stats.length - 1 then
    let t2 := st2.cur ++ [Piece.statsSep]
    if ¬ overflows ctx maxB t2 then
      { cur := t2, hasContent := st2.hasContent, batches := st2.batches }
    else st2
  else st2

/-- Loop over the stats groups (`for i, stat in enumerate(report_data["stats"])`). -/
def statsGroupsLoop (ctx : Ctx) (maxB : Int) :
    List StatItem → Nat → PackSt → PackSt
  | [], _, st => st
  | stat :: rest, i, st =>
    statsGroupsLoop ctx maxB rest (i + 1) (statsGroupStep ctx maxB stat i st)

/-- `process_stats_section` from `split_content_into_batches`. -/
def process_stats_section (ctx : Ctx) (maxB : Int) (st : PackSt) : PackSt :=
  if ctx.rd.stats.isEmpty then st
  else
    let test := st.cur ++ [Piece.statsHeader]
    let st1 : PackSt :=
      if ¬ overflows ctx maxB test then
        { cur := test, hasContent := true, batches := st.batches }
      else
        { cur := [Piece.baseHeader, Piece.statsHeader], hasContent := true,
          batches := flushB st }
    statsGroupsLoop ctx maxB ctx.rd.stats 0 st1

/-- Inner loop over the remaining new titles of a source group. -/
def srcItemsLoop (ctx : Ctx) (maxB : Int) (i : Nat) :
    List TitleData → Nat → PackSt → PackSt
  | [], _, st => st
  | _ :: ts, j, st =>
    let line := Piece.srcItem i j
    let test := st.cur ++ [line]
    if overflows ctx maxB test then
      srcItemsLoop ctx maxB i ts (j + 1)
        { cur := [Piece.baseHeader, Piece.newHeader, Piece.srcHeader i, line],
          hasContent := true, batches := flushB st }
    else
      srcItemsLoop ctx maxB i ts (j + 1)
        { cur := test, hasContent := true, batches := st.batches }

/-- One iteration of the new-titles source-group loop. -/
def srcGroupStep (ctx : Ctx) (maxB : Int) (sd : SourceGroup) (i : Nat)
    (st : PackSt) : PackSt :=
  let unit := [Piece.srcHeader i, Piece.srcFirst i]
  let test := st.cur ++ unit
  let st1 : PackSt :=
    if overflows ctx maxB test then
      { cur := [Piece.baseHeader, Piece.newHeader] ++ unit, hasContent := true,
        batches := flushB st }
    else { cur := test, hasContent := true, batches := st.batches }
  let st2 := srcItemsLoop ctx maxB i (sd.titles.drop 1) 1 st1
  { cur := st2.cur ++ [Piece.srcEnd], hasContent := st2.hasContent,
    batches := st2.batches }

/-- Loop over the new-title source groups. -/
def srcGroupsLoop (ctx : Ctx) (maxB : Int) :
    List SourceGroup → Nat → PackSt → PackSt
  | [], _, st => st
  | sd :: rest, i, st =>
    srcGroupsLoop ctx maxB rest (i + 1) (srcGroupStep ctx maxB sd i st)

/-- `process_new_titles_section` from `split_content_into_batches`. -/
def process_new_titles_section (ctx : Ctx) (maxB : Int) (st : PackSt) : PackSt :=
  if ctx.rd.new_titles.isEmpty then st
  else
    let test := st.cur ++ [Piece.newHeader]
    let st1 : PackSt :=
      if overflows ctx maxB test then
        { cur := [Piece.baseHeader, Piece.newHeader], hasContent := true,
          batches := flushB st }
      else { cur := test, hasContent := true, batches := st.batches }
    srcGroupsLoop ctx maxB ctx.rd.new_titles 0 st1

/-- Loop over the failed source identifiers. -/
def failedLoop (ctx : Ctx) (maxB : Int) :
    List String → Nat → PackSt → PackSt
  | [], _, st => st
  | _ :: ts, i, st =>
    let line := Piece.failedLine i
    let test := st.cur ++ [line]
    if overflows ctx maxB test then
      failedLoop ctx maxB ts (i + 1)
        { cur := [Piece.baseHeader, Piece.failedHeader, line], hasContent := true,
          batches := flushB st }
    else
      failedLoop ctx maxB ts (i + 1)
        { cur := test, hasContent := true, batches := st.batches }

/-- The failed-sources section of `split_content_into_batches`. -/
def process_failed_section (ctx : Ctx) (maxB : Int) (st : PackSt) : PackSt :=
  if ctx.rd.failed_ids.isEmpty then st
  else
    let test := st.cur ++ [Piece.failedHeader]
    let st1 : PackSt :=
      if overflows ctx maxB test then
        { cur := [Piece.baseHeader, Piece.failedHeader], hasContent := true,
          batches := flushB st }
      else { cur := test, hasContent := true, batches := st.batches }
    failedLoop ctx maxB ctx.rd.failed_ids 0 st1

/-- `split_content_into_batches`, at piece granularity.  `maxB` is the
`max_bytes` argument (always passed explicitly by the channel senders). -/
def split_pieces (ctx : Ctx) (maxB : Int) : List (List Piece) :=
  if ctx.rd.stats.isEmpty && ctx.rd.new_titles.isEmpty && ctx.rd.failed_ids.isEmpty then
    [[Piece.baseHeader, Piece.simpleContent, Piece.footer]]
  else
    let st0 : PackSt := { cur := [Piece.baseHeader], hasContent := false, batches := [] }
    let st1 :=
      if ctx.cfg.reverse_content_order then
        process_stats_section ctx maxB (process_new_titles_section ctx maxB st0)
      else
        process_new_titles_section ctx maxB (process_stats_section ctx maxB st0)
    let st2 := process_failed_section ctx maxB st1
    if st2.hasContent then st2.batches ++ [st2.cur ++ [Piece.footer]] else st2.batches

/-- Rendered payload string of one batch. -/
def batchStr (ctx : Ctx) (b : List Piece) : String := String.join (b.map (pieceStr ctx))

/-- `split_content_into_batches` from `reporting/batch_utils.py`: the ordered
list of payload strings. -/
def split_content_into_batches (ctx : Ctx) (maxB : Int) : List String :=
  (split_pieces ctx maxB).map (batchStr ctx)

/-! ## Batch annotator / truncator (`reporting/batch_utils.py`) -/

/-- Python slice `l[:m]` for a possibly negative `m`. -/
def pySliceTo (l : List Nat) (m : Int) : List Nat :=
  if m < 0 then l.take (((l.length : Int) + m).toNat) else l.take m.toNat

/-- The backward scan of `_truncate_to_bytes`: try decoding
`truncated[:len(truncated)-i]` for `i = 0, 1, ...` while fuel lasts
(`for i in range(min(4, len(truncated)))`), returning the first success or
the empty string. -/
def truncScan (truncated : List Nat) : Nat → Nat → String
  | _, 0 => ""
  | i, fuel + 1 =>
    match decodeStr (truncated.take (truncated.length - i)) with
    | some s => s
    | none => truncScan truncated (i + 1) fuel

/-- `_truncate_to_bytes` from `reporting/batch_utils.py`. -/
def truncate_to_bytes (text : String) (max_bytes : Int) : String :=
  let text_bytes := pyEncode text
  if (text_bytes.length : Int) ≤ max_bytes then text
  else
    let truncated := pySliceTo text_bytes max_bytes
    truncScan truncated 0 (min 4 truncated.length)

/-- `_get_batch_header` from `reporting/batch_utils.py`. -/
def get_batch_header (format_type : Platform) (batch_num total_batches : Nat) :
    String :=
  match format_type with
  | .telegram =>
    "<b>[第 " ++ toString batch_num ++ "/" ++ toString total_batches ++ " 批次]</b>\n"
  | .slack =>
    "*[第 " ++ toString batch_num ++ "/" ++ toString total_batches ++ " 批次]*\n"
  | .weworkText | .bark =>
    "[第 " ++ toString batch_num ++ "/" ++ toString total_batches ++ " 批次]\n"
  | _ =>
    "**[第 " ++ toString batch_num ++ "/" ++ toString total_batches ++ " 批次]**\n"

/-- `get_max_batch_header_size` from `reporting/batch_utils.py`. -/
def get_max_batch_header_size (format_type : Platform) : Nat :=
  utf8Len (get_batch_header format_type 99 99)

/-- The annotation loop of `add_batch_headers` (`for i, content in
enumerate(batches, 1)`). -/
def annotateBatches (format_type : Platform) (max_bytes : Int) (total : Nat) :
    Nat → List String → List String
  | _, [] => []
  | i, content :: cs =>
    let header := get_batch_header format_type i total
    let header_size := utf8Len header
    let max_content_size : Int := max_bytes - header_size
    let content2 := if (utf8Len content : Int) > max_content_size then
        truncate_to_bytes content max_content_size
      else content
    (header ++ content2) :: annotateBatches format_type max_bytes total (i + 1) cs

/-- `add_batch_headers` from `reporting/batch_utils.py`. -/
def add_batch_headers (batches : List String) (format_type : Platform)
    (max_bytes : Int) : List String :=
  if batches.length ≤ 1 then batches
  else annotateBatches format_type max_bytes batches.length 1 batches

/-! ## Channel senders (`notification/channels/*.py`)

Each sender computes its batches through the packing pipeline and posts them
through an abstract transport oracle: `tr k` is the outcome of the `k`-th
HTTP post of that call (`true` = the channel-specific acceptance check
passed; `false` covers non-success status codes, error response bodies and
raised exceptions, all of which the source treats identically). -/

/-- Per-batch send loop shared by feishu, dingtalk, wework, telegram and
slack: returns `False` as soon as one batch is rejected, `True` only after
every batch was accepted. -/
def allBatchesLoop (tr : Nat → Bool) : Nat → List String → Bool
  | _, [] => true
  | k, _ :: bs => if tr k then allBatchesLoop tr (k + 1) bs else false

/-- Outcome of one ntfy post: accepted, rate-limited (with the outcome of
the single retry), or failed/raised. -/
inductive NtfyResp where
  | ok
  | rateLimited (retryOk : Bool)
  | failed
deriving DecidableEq

/-- Did the ntfy transport accept the batch on the first attempt or on the
retry after a 429? -/
def ntfyAccepted : NtfyResp → Bool
  | .ok => true
  | .rateLimited retryOk => retryOk
  | .failed => false

/-- The success-counting loop of `send_to_ntfy` / `send_to_bark`. -/
def countAccepted (acc : Nat → Bool) : Nat → List String → Nat
  | _, [] => 0
  | k, _ :: bs => (if acc k then 1 else 0) + countAccepted acc (k + 1) bs

/-- The annotated batches computed inside `send_to_telegram`
(`telegram_batch_size = CONFIG.get("MESSAGE_BATCH_SIZE", 4000)`). -/
def telegramBatches (rd : ReportData) (cfg : PackCfg) (nowStr : String)
    (ui : Option UpdateInfo) (mode : Mode) (message_batch_size : Int) : List String :=
  let ctx : Ctx := ⟨rd, .telegram, cfg, nowStr, ui, mode⟩
  let header_reserve := get_max_batch_header_size .telegram
  add_batch_headers
    (split_content_into_batches ctx (message_batch_size - header_reserve))
    .telegram message_batch_size

/-- `send_to_telegram` from `notification/channels/telegram.py`. -/
def send_to_telegram (rd : ReportData) (cfg : PackCfg) (nowStr : String)
    (ui : Option UpdateInfo) (mode : Mode) (message_batch_size : Int)
    (tr : Nat → Bool) : Bool :=
  allBatchesLoop tr 0 (telegramBatches rd cfg nowStr ui mode message_batch_size)

/-- The annotated batches computed inside `send_to_feishu` (content format
is `"wework"` when `use_compatiable_format` is set, batch markers always use
the feishu format). -/
def feishuBatches (rd : ReportData) (cfg : PackCfg) (nowStr : String)
    (ui : Option UpdateInfo) (mode : Mode) (feishu_batch_size : Int)
    (useCompat : Bool) : List String :=
  let ctx : Ctx := ⟨rd, if useCompat then .wework else .feishu, cfg, nowStr, ui, mode⟩
  let header_reserve := get_max_batch_header_size .feishu
  add_batch_headers
    (split_content_into_batches ctx (feishu_batch_size - header_reserve))
    .feishu feishu_batch_size

/-- `send_to_feishu` from `notification/channels/feishu.py`. -/
def send_to_feishu (rd : ReportData) (cfg : PackCfg) (nowStr : String)
    (ui : Option UpdateInfo) (mode : Mode) (feishu_batch_size : Int)
    (useCompat : Bool) (tr : Nat → Bool) : Bool :=
  allBatchesLoop tr 0 (feishuBatches rd cfg nowStr ui mode feishu_batch_size useCompat)

/-- The annotated batches computed inside `send_to_ntfy` (the batch size is
the literal 3800 and the final list is reversed before sending). -/
def ntfyBatches (rd : ReportData) (cfg : PackCfg) (nowStr : String)
    (ui : Option UpdateInfo) (mode : Mode) : List String :=
  let ctx : Ctx := ⟨rd, .ntfy, cfg, nowStr, ui, mode⟩
  let header_reserve := get_max_batch_header_size .ntfy
  (add_batch_headers (split_content_into_batches ctx (3800 - header_reserve))
    .ntfy 3800).reverse

/-- `send_to_ntfy` from `notification/channels/ntfy.py`: counts the batches
accepted (directly or on the one retry after a 429) and reports success when
at least one batch was accepted. -/
def send_to_ntfy (rd : ReportData) (cfg : PackCfg) (nowStr : String)
    (ui : Option UpdateInfo) (mode : Mode) (tr : Nat → NtfyResp) : Bool :=
  0 < countAccepted (fun k => ntfyAccepted (tr k)) 0 (ntfyBatches rd cfg nowStr ui mode)

/-- The annotated batches computed inside `send_to_dingtalk`. -/
def dingtalkBatches (rd : ReportData) (cfg : PackCfg) (nowStr : String)
    (ui : Option UpdateInfo) (mode : Mode) (dingtalk_batch_size : Int) : List String :=
  let ctx : Ctx := ⟨rd, .dingtalk, cfg, nowStr, ui, mode⟩
  let header_reserve := get_max_batch_header_size .dingtalk
  add_batch_headers
    (split_content_into_batches ctx (dingtalk_batch_size - header_reserve))
    .dingtalk dingtalk_batch_size

/-- `send_to_dingtalk` from `notification/channels/dingtalk.py`. -/
def send_to_dingtalk (rd : ReportData) (cfg : PackCfg) (nowStr : String)
    (ui : Option UpdateInfo) (mode : Mode) (dingtalk_batch_size : Int)
    (tr : Nat → Bool) : Bool :=
  allBatchesLoop tr 0 (dingtalkBatches rd cfg nowStr ui mode dingtalk_batch_size)

/-- The annotated batches computed inside `send_to_wework` (content split
with the `"wework"` format; markers use `"wework_text"` when the configured
message type is `text`). -/
def weworkBatches (rd : ReportData) (cfg : PackCfg) (nowStr : String)
    (ui : Option UpdateInfo) (mode : Mode) (wework_batch_size : Int)
    (isTextMode : Bool) : List String :=
  let format_type : Platform := if isTextMode then .weworkText else .wework
  let ctx : Ctx := ⟨rd, .wework, cfg, nowStr, ui, mode⟩
  let header_reserve := get_max_batch_header_size format_type
  add_batch_headers
    (split_content_into_batches ctx (wework_batch_size - header_reserve))
    format_type wework_batch_size

/-- `send_to_wework` from `notification/channels/wework.py`. -/
def send_to_wework (rd : ReportData) (cfg : PackCfg) (nowStr : String)
    (ui : Option UpdateInfo) (mode : Mode) (wework_batch_size : Int)
    (isTextMode : Bool) (tr : Nat → Bool) : Bool :=
  allBatchesLoop tr 0 (weworkBatches rd cfg nowStr ui mode wework_batch_size isTextMode)

/-- The annotated batches computed inside `send_to_slack`. -/
def slackBatches (rd : ReportData) (cfg : PackCfg) (nowStr : String)
    (ui : Option UpdateInfo) (mode : Mode) (slack_batch_size : Int) : List String :=
  let ctx : Ctx := ⟨rd, .slack, cfg, nowStr, ui, mode⟩
  let header_reserve := get_max_batch_header_size .slack
  add_batch_headers
    (split_content_into_batches ctx (slack_batch_size - header_reserve))
    .slack slack_batch_size

/-- `send_to_slack` from `notification/channels/slack.py`. -/
def send_to_slack (rd : ReportData) (cfg : PackCfg) (nowStr : String)
    (ui : Option UpdateInfo) (mode : Mode) (slack_batch_size : Int)
    (tr : Nat → Bool) : Bool :=
  allBatchesLoop tr 0 (slackBatches rd cfg nowStr ui mode slack_batch_size)

/-- The annotated batches computed inside `send_to_bark` (reversed before
sending, like ntfy). -/
def barkBatches (rd : ReportData) (cfg : PackCfg) (nowStr : String)
    (ui : Option UpdateInfo) (mode : Mode) (bark_batch_size : Int) : List String :=
  let ctx : Ctx := ⟨rd, .bark, cfg, nowStr, ui, mode⟩
  let header_reserve := get_max_batch_header_size .bark
  (add_batch_headers (split_content_into_batches ctx (bark_batch_size - header_reserve))
    .bark bark_batch_size).reverse

/-- `send_to_bark` from `notification/channels/bark.py`.  The device key
extracted by `urlparse` from the account URL is passed abstractly; a missing
key makes the function return `False` before any post. -/
def send_to_bark (device_key : Option String) (rd : ReportData) (cfg : PackCfg)
    (nowStr : String) (ui : Option UpdateInfo) (mode : Mode) (bark_batch_size : Int)
    (tr : Nat → Bool) : Bool :=
  match device_key with
  | none => false
  | some _ =>
    0 < countAccepted tr 0 (barkBatches rd cfg nowStr ui mode bark_batch_size)

/-! ## Notification manager (`notification/manager.py`) -/

/-- ASCII `str.lower()` (used on the configured wework message type). -/
def pyLowerAscii (s : String) : String :=
  String.mk (s.data.map (fun c =>
    if decide (65 ≤ c.toNat) && decide (c.toNat ≤ 90) then Char.ofNat (c.toNat + 32)
    else c))

/-- Modelled from the spec: `notification/push_record.py` (class
`PushRecordManager`, method `is_in_time_range`) is not under `src/`.  Per
the spec ("pass only if it falls within `[start, end)`"), the check passes
exactly when the current local time-of-day lies in the half-open window;
times are modelled as minutes of the day. -/
def is_in_time_range (startMinutes endMinutes nowMinutes : Nat) : Bool :=
  decide (startMinutes ≤ nowMinutes) && decide (nowMinutes < endMinutes)

/-- Modelled from the spec: `reporting/data_preparer.py` (function
`prepare_report_data`) is not under `src/`.  Per the spec (§3 `ReportData`),
the report carries the ordered stats sections, the ordered new-title groups,
the failed sources and the total-new-count (the number of newly observed
titles across the groups). -/
def prepare_report_data (stats : List StatItem) (failed_ids : List String)
    (new_titles : List SourceGroup) : ReportData :=
  { stats := stats, new_titles := new_titles, failed_ids := failed_ids,
    total_new_count := (new_titles.map (fun g => g.titles.length)).sum }

/-- The `CONFIG` values read by `send_to_notifications`. -/
structure NotifyConfig where
  max_accounts_per_channel : Nat
  push_window_enabled : Bool
  push_window_start : Nat
  push_window_end : Nat
  once_per_day : Bool
  show_version_update : Bool
  feishu_webhook_url : String
  feishu_outside_webhook_url : String
  dingtalk_webhook_url : String
  wework_webhook_url : String
  wework_msg_type : String
  telegram_bot_token : String
  telegram_chat_id : String
  ntfy_server_url : String
  ntfy_topic : String
  ntfy_token : String
  bark_url : String
  slack_webhook_url : String
  email_from : String
  email_password : String
  email_to : String
  message_batch_size : Int
  dingtalk_batch_size : Int
  feishu_batch_size : Int
  bark_batch_size : Int
  slack_batch_size : Int
  pack : PackCfg

/-- Transport oracles for one run: for each channel, `accountIdx → postIdx →
outcome`; bark device keys are extracted from the account URL by an oracle,
and the email submission outcome is a single boolean. -/
structure Transports where
  feishuTr : Nat → Nat → Bool
  feishuOutTr : Nat → Nat → Bool
  dingtalkTr : Nat → Nat → Bool
  weworkTr : Nat → Nat → Bool
  telegramTr : Nat → Nat → Bool
  ntfyTr : Nat → Nat → NtfyResp
  barkTr : Nat → Nat → Bool
  barkKey : String → Option String
  slackTr : Nat → Nat → Bool
  emailOk : Bool

/-- A logged channel send invocation: (channel label, account credential). -/
abbrev Call := String × String

/-- The account loop shared by the single-credential channels: invoke the
send function on each non-blank account, collecting the per-account results
and logging each invocation. -/
def accountLoop (channel : String) (send : Nat → String → Bool) :
    Nat → List String → List Bool × List Call
  | _, [] => ([], [])
  | i, u :: us =>
    if u ≠ "" then
      let r := send i u
      let rest := accountLoop channel send (i + 1) us
      (r :: rest.1, (channel, u) :: rest.2)
    else accountLoop channel send (i + 1) us

/-- The paired account loop of the telegram block (`for i in
range(len(telegram_tokens))`, sending only when both the token and the
chat id at position `i` are non-blank). -/
def telegramLoop (send : Nat → String → String → Bool) (chat_ids : List String) :
    Nat → List String → List Bool × List Call
  | _, [] => ([], [])
  | i, tok :: toks =>
    let chat := chat_ids.getD i ""
    if tok ≠ "" ∧ chat ≠ "" then
      let r := send i tok chat
      let rest := telegramLoop send chat_ids (i + 1) toks
      (r :: rest.1, ("telegram", tok) :: rest.2)
    else telegramLoop send chat_ids (i + 1) toks

/-- The ntfy account loop (`for i, topic in enumerate(ntfy_topics)`), with
the per-account token looked up by `get_account_at_index`. -/
def ntfyLoop (send : Nat → String → String → Bool) (tokens : List String) :
    Nat → List String → List Bool × List Call
  | _, [] => ([], [])
  | i, topic :: topics =>
    if topic ≠ "" then
      let token := get_account_at_index tokens i ""
      let r := send i topic token
      let rest := ntfyLoop send tokens (i + 1) topics
      (r :: rest.1, ("ntfy", topic) :: rest.2)
    else ntfyLoop send tokens (i + 1) topics

/-- `send_to_notifications` from `notification/manager.py`.  Returns the
channel → success result map (as an association list in insertion order),
the list of channel send invocations issued, and whether a push record was
written at the end of the run.  `nowMinutes` is the current local
time-of-day and `pushedToday` whether a push record for (report type,
today) already exists (both behind the spec-modelled `PushRecordManager`,
whose module is not under `src/`). -/
def send_to_notifications (cfg : NotifyConfig) (tr : Transports)
    (nowMinutes : Nat) (pushedToday : Bool)
    (stats : List StatItem) (failed_ids : List String)
    (new_titles : List SourceGroup) (update_info : Option UpdateInfo)
    (mode : Mode) (nowStr : String) :
    List (String × Bool) × List Call × Bool :=
  if cfg.push_window_enabled ∧
      ¬ is_in_time_range cfg.push_window_start cfg.push_window_end nowMinutes then
    ([], [], false)
  else if cfg.push_window_enabled ∧ cfg.once_per_day ∧ pushedToday then
    ([], [], false)
  else
    let report_data := prepare_report_data stats failed_ids new_titles
    let ui := if cfg.show_version_update then update_info else none
    let max_accounts := cfg.max_accounts_per_channel
    -- feishu
    let feishu_urls := parse_multi_account_config cfg.feishu_webhook_url
    let feishuBlock : List (String × Bool) × List Call :=
      if feishu_urls.isEmpty then ([], [])
      else
        let urls := limit_accounts feishu_urls max_accounts "飞书"
        let r := accountLoop "feishu"
          (fun i _ => send_to_feishu report_data cfg.pack nowStr ui mode
            cfg.feishu_batch_size false (tr.feishuTr i)) 0 urls
        ([("feishu", r.1.any id)], r.2)
    -- feishu outside
    let feishu_outside_urls := parse_multi_account_config cfg.feishu_outside_webhook_url
    let feishuOutBlock : List (String × Bool) × List Call :=
      if feishu_outside_urls.isEmpty then ([], [])
      else
        let urls := limit_accounts feishu_outside_urls max_accounts "飞书"
        let r := accountLoop "feishu_outside"
          (fun i _ => send_to_feishu report_data cfg.pack nowStr ui mode
            cfg.feishu_batch_size true (tr.feishuOutTr i)) 0 urls
        ([("feishu_outside", r.1.any id)], r.2)
    -- dingtalk
    let dingtalk_urls := parse_multi_account_config cfg.dingtalk_webhook_url
    let dingtalkBlock : List (String × Bool) × List Call :=
      if dingtalk_urls.isEmpty then ([], [])
      else
        let urls := limit_accounts dingtalk_urls max_accounts "钉钉"
        let r := accountLoop "dingtalk"
          (fun i _ => send_to_dingtalk report_data cfg.pack nowStr ui mode
            cfg.dingtalk_batch_size (tr.dingtalkTr i)) 0 urls
        ([("dingtalk", r.1.any id)], r.2)
    -- wework
    let wework_urls := parse_multi_account_config cfg.wework_webhook_url
    let weworkBlock : List (String × Bool) × List Call :=
      if wework_urls.isEmpty then ([], [])
      else
        let urls := limit_accounts wework_urls max_accounts "企业微信"
        let isTextMode := pyLowerAscii cfg.wework_msg_type = "text"
        let r := accountLoop "wework"
          (fun i _ => send_to_wework report_data cfg.pack nowStr ui mode
            cfg.message_batch_size isTextMode (tr.weworkTr i)) 0 urls
        ([("wework", r.1.any id)], r.2)
    -- telegram
    let telegram_tokens := parse_multi_account_config cfg.telegram_bot_token
    let telegram_chat_ids := parse_multi_account_config cfg.telegram_chat_id
    let telegramBlock : List (String × Bool) × List Call :=
      if telegram_tokens.isEmpty ∨ telegram_chat_ids.isEmpty then ([], [])
      else
        let v := validate_paired_configs
          [("bot_token", telegram_tokens), ("chat_id", telegram_chat_ids)]
          "Telegram" (some ["bot_token", "chat_id"])
        if v.1 ∧ 0 < v.2 then
          let toks := limit_accounts telegram_tokens max_accounts "Telegram"
          let chats := telegram_chat_ids.take toks.length
          let r := telegramLoop
            (fun i _ _ => send_to_telegram report_data cfg.pack nowStr ui mode
              cfg.message_batch_size (tr.telegramTr i)) chats 0 toks
          ([("telegram", r.1.any id)], r.2)
        else ([], [])
    -- ntfy
    let ntfy_topics := parse_multi_account_config cfg.ntfy_topic
    let ntfy_tokens := parse_multi_account_config cfg.ntfy_token
    let ntfyBlock : List (String × Bool) × List Call :=
      if cfg.ntfy_server_url = "" ∨ ntfy_topics.isEmpty then ([], [])
      else if ¬ ntfy_tokens.isEmpty ∧ ntfy_tokens.length ≠ ntfy_topics.length then
        ([], [])
      else
        let topics := limit_accounts ntfy_topics max_accounts "ntfy"
        let tokens := if ntfy_tokens.isEmpty then ntfy_tokens
          else ntfy_tokens.take topics.length
        let r := ntfyLoop
          (fun i _ _ => send_to_ntfy report_data cfg.pack nowStr ui mode
            (tr.ntfyTr i)) tokens 0 topics
        ([("ntfy", r.1.any id)], r.2)
    -- bark
    let bark_urls := parse_multi_account_config cfg.bark_url
    let barkBlock : List (String × Bool) × List Call :=
      if bark_urls.isEmpty then ([], [])
      else
        let urls := limit_accounts bark_urls max_accounts "Bark"
        let r := accountLoop "bark"
          (fun i u => send_to_bark (tr.barkKey u) report_data cfg.pack nowStr ui mode
            cfg.bark_batch_size (tr.barkTr i)) 0 urls
        ([("bark", r.1.any id)], r.2)
    -- slack
    let slack_urls := parse_multi_account_config cfg.slack_webhook_url
    let slackBlock : List (String × Bool) × List Call :=
      if slack_urls.isEmpty then ([], [])
      else
        let urls := limit_accounts slack_urls max_accounts "Slack"
        let r := accountLoop "slack"
          (fun i _ => send_to_slack report_data cfg.pack nowStr ui mode
            cfg.slack_batch_size (tr.slackTr i)) 0 urls
        ([("slack", r.1.any id)], r.2)
    -- email
    let emailBlock : List (String × Bool) × List Call :=
      if cfg.email_from ≠ "" ∧ cfg.email_password ≠ "" ∧ cfg.email_to ≠ "" then
        ([("email", tr.emailOk)], [("email", cfg.email_from)])
      else ([], [])
    let results := feishuBlock.1 ++ feishuOutBlock.1 ++ dingtalkBlock.1 ++
      weworkBlock.1 ++ telegramBlock.1 ++ ntfyBlock.1 ++ barkBlock.1 ++
      slackBlock.1 ++ emailBlock.1
    let calls := feishuBlock.2 ++ feishuOutBlock.2 ++ dingtalkBlock.2 ++
      weworkBlock.2 ++ telegramBlock.2 ++ ntfyBlock.2 ++ barkBlock.2 ++
      slackBlock.2 ++ emailBlock.2
    let recorded := cfg.push_window_enabled ∧ cfg.once_per_day ∧
      results.any (fun kv => kv.2)
    (results, calls, decide recorded)

/-! ## Theorems -/

theorem pySplit_aux_ne_nil (sep : List Char) :
    ∀ (fuel : Nat) (acc cs : List Char), splitOnListAux sep fuel acc cs ≠ [] := by
  intro fuel
  induction fuel with
  | zero =>
    intro acc cs
    cases cs <;> simp [splitOnListAux]
  | succ fuel ih =>
    intro acc cs
    cases cs with
    | nil => simp [splitOnListAux]
    | cons c cs =>
      simp only [splitOnListAux]
      split_ifs with hp
      · simp
      · exact ih (c :: acc) cs

theorem pySplit_ne_nil (s sep : String) : pySplit s sep ≠ [] := by
  unfold pySplit
  split_ifs with h
  · simp
  · simp only [ne_eq, List.map_eq_nil_iff]
    exact pySplit_aux_ne_nil sep.data (s.data.length + 1) [] s.data

theorem parse_multi_account_config_eq (raw : String) (h1 : raw ≠ "") :
    parse_multi_account_config raw ";" =
      (if ((pySplit raw ";").map pyStrip).all (fun a => a = "") then []
       else (pySplit raw ";").map pyStrip) := by
  unfold parse_multi_account_config
  rw [if_neg h1]

/-- C5: `parse_multi_account_config` splits on the separator, trims each
token, preserves empty tokens positionally, and returns `[]` exactly when
the input is empty or every token is blank; in particular `"a;;b"` maps to
`["a", "", "b"]`, `""` to `[]`, and `";;"` to `[]`. -/
theorem parse_multi_account_config_spec :
    (∀ raw : String, parse_multi_account_config raw ";" = [] ↔
      (raw = "" ∨ ∀ t ∈ pySplit raw ";", pyStrip t = "")) ∧
    (∀ raw : String, parse_multi_account_config raw ";" ≠ [] →
      parse_multi_account_config raw ";" = (pySplit raw ";").map pyStrip) ∧
    parse_multi_account_config "a;;b" ";" = ["a", "", "b"] ∧
    parse_multi_account_config "" ";" = [] ∧
    parse_multi_account_config ";;" ";" = [] := by
  refine ⟨?_, ?_, by decide, by decide, by decide⟩
  · intro raw
    by_cases h1 : raw = ""
    · subst h1
      simp [parse_multi_account_config]
    · rw [parse_multi_account_config_eq raw h1]
      split_ifs with h2
      · simp only [true_iff]
        right
        intro t ht
        have := List.all_eq_true.mp h2 (pyStrip t) (List.mem_map_of_mem pyStrip ht)
        simpa using this
      · have hne : (pySplit raw ";").map pyStrip ≠ [] := by
          simp only [ne_eq, List.map_eq_nil_iff]
          exact pySplit_ne_nil raw ";"
        constructor
        · intro hnil
          exact absurd hnil hne
        · rintro (hc | hc)
          · exact absurd hc h1
          · exfalso
            apply h2
            apply List.all_eq_true.mpr
            intro x hx
            obtain ⟨t, ht, rfl⟩ := List.mem_map.mp hx
            simpa using hc t ht
  · intro raw h
    by_cases h1 : raw = ""
    · subst h1
      exact absurd rfl h
    · rw [parse_multi_account_config_eq raw h1] at h ⊢
      split_ifs at h ⊢ with h2
      · exact absurd rfl h
      · rfl

theorem parse_multi_account_config_spec_witness :
    parse_multi_account_config "a;;b" ";" = (pySplit "a;;b" ";").map pyStrip :=
  parse_multi_account_config_spec.2.1 "a;;b" (by decide)

theorem dedup_eq_single {L : Nat} : ∀ {l : List Nat}, l ≠ [] → (∀ x ∈ l, x = L) →
    l.dedup = [L] := by
  intro l
  induction l with
  | nil => intro h; exact absurd rfl h
  | cons a as ih =>
    intro _ hall
    have ha : a = L := hall a (List.mem_cons_self a as)
    subst ha
    cases has : as with
    | nil => simp
    | cons b bs =>
      rw [← has]
      have has_ne : as ≠ [] := by rw [has]; simp
      have hdeq : as.dedup = [a] := ih has_ne (fun x hx => hall x (List.mem_cons_of_mem a hx))
      have hmem : a ∈ as.dedup := by rw [hdeq]; simp
      rw [List.dedup_cons_of_mem (List.mem_dedup.mp hmem), hdeq]

theorem one_lt_dedup_length {l : List Nat} {a b : Nat} (ha : a ∈ l) (hb : b ∈ l)
    (hab : a ≠ b) : 1 < l.dedup.length := by
  have ha2 : a ∈ l.dedup := List.mem_dedup.mpr ha
  have hb2 : b ∈ l.dedup := List.mem_dedup.mpr hb
  rcases hd : l.dedup with _ | ⟨x, _ | ⟨y, ys⟩⟩
  · rw [hd] at ha2; cases ha2
  · rw [hd] at ha2 hb2
    simp only [List.mem_singleton] at ha2 hb2
    exact absurd (ha2.trans hb2.symm) hab
  · simp

/-- The non-empty-configs filter of `validate_paired_configs`. -/
def nonEmptyConfigs (configs : List (String × List String)) :
    List (String × List String) :=
  configs.filter (fun kv : String × List String => !kv.2.isEmpty)

/-- The required-keys check of `validate_paired_configs`. -/
def requiredMissing (configs : List (String × List String))
    (req : Option (List String)) : Bool :=
  match req with
  | none => false
  | some r => r.any (fun k =>
      !((nonEmptyConfigs configs).map (fun kv : String × List String => kv.1)).contains k)

theorem validate_paired_configs_eq (configs : List (String × List String))
    (name : String) (req : Option (List String)) :
    validate_paired_configs configs name req =
      (if (nonEmptyConfigs configs).isEmpty then (true, 0)
       else if requiredMissing configs req then (true, 0)
       else if 1 < ((nonEmptyConfigs configs).map
           (fun kv : String × List String => kv.2.length)).dedup.length then (false, 0)
       else (true, ((nonEmptyConfigs configs).map
           (fun kv : String × List String => kv.2.length)).dedup.headD 0)) := by
  cases req <;> rfl

/-- C6: `validate_paired_configs` returns `(true, 0)` when every list is
empty and when a required key is missing or empty while other lists are
non-empty; `(false, 0)` when the non-empty lists have two or more distinct
lengths; `(true, L)` when all non-empty lists share the single length `L`;
and in particular `(false, 0)` for `{bot_token: [t1, t2], chat_id: [c1]}`
with both keys required. -/
theorem validate_paired_configs_spec :
    (∀ configs name req, (∀ kv ∈ configs, kv.2 = []) →
      validate_paired_configs configs name req = (true, 0)) ∧
    (∀ configs name req, (∃ kv ∈ configs, kv.2 ≠ []) →
      (∃ k ∈ req, ((nonEmptyConfigs configs).map
        (fun kv : String × List String => kv.1)).contains k = false) →
      validate_paired_configs configs name (some req) = (true, 0)) ∧
    (∀ configs name req,
      requiredMissing configs req = false →
      (∃ kv ∈ nonEmptyConfigs configs, ∃ kv2 ∈ nonEmptyConfigs configs,
        kv.2.length ≠ kv2.2.length) →
      validate_paired_configs configs name req = (false, 0)) ∧
    (∀ configs name req L,
      requiredMissing configs req = false →
      nonEmptyConfigs configs ≠ [] →
      (∀ kv ∈ nonEmptyConfigs configs, kv.2.length = L) →
      validate_paired_configs configs name req = (true, L)) ∧
    validate_paired_configs [("bot_token", ["t1", "t2"]), ("chat_id", ["c1"])]
      "Telegram" (some ["bot_token", "chat_id"]) = (false, 0) := by
  refine ⟨?_, ?_, ?_, ?_, by decide⟩
  · intro configs name req hall
    rw [validate_paired_configs_eq]
    have hempty : (nonEmptyConfigs configs).isEmpty := by
      unfold nonEmptyConfigs
      rw [List.isEmpty_iff, List.filter_eq_nil_iff]
      intro kv hkv
      simp [hall kv hkv]
    rw [if_pos hempty]
  · intro configs name req hne hmiss
    rw [validate_paired_configs_eq]
    have hnotempty : ¬ (nonEmptyConfigs configs).isEmpty := by
      obtain ⟨kv, hkv, hkv2⟩ := hne
      rw [List.isEmpty_iff]
      intro hnil
      have hm : kv ∈ nonEmptyConfigs configs := by
        apply List.mem_filter.mpr
        exact ⟨hkv, by simpa using hkv2⟩
      rw [hnil] at hm
      cases hm
    rw [if_neg hnotempty]
    have hcond : requiredMissing configs (some req) = true := by
      unfold requiredMissing
      obtain ⟨k, hk, hkc⟩ := hmiss
      apply List.any_eq_true.mpr
      refine ⟨k, hk, ?_⟩
      rw [hkc]
      rfl
    rw [hcond, if_pos rfl]
  · intro configs name req hreq hmism
    rw [validate_paired_configs_eq]
    have hnotempty : ¬ (nonEmptyConfigs configs).isEmpty := by
      obtain ⟨kv, hkv, _⟩ := hmism
      rw [List.isEmpty_iff]
      intro hnil
      rw [hnil] at hkv
      cases hkv
    rw [if_neg hnotempty, hreq]
    simp only [Bool.false_eq_true, if_false]
    obtain ⟨kv, hkv, kv2, hkv2, hlen⟩ := hmism
    have h1lt : 1 < ((nonEmptyConfigs configs).map
        (fun kv : String × List String => kv.2.length)).dedup.length := by
      apply one_lt_dedup_length (a := kv.2.length) (b := kv2.2.length)
      · exact List.mem_map_of_mem _ hkv
      · exact List.mem_map_of_mem _ hkv2
      · exact hlen
    rw [if_pos h1lt]
  · intro configs name req L hreq hne hall
    rw [validate_paired_configs_eq]
    have hnotempty : ¬ (nonEmptyConfigs configs).isEmpty := by
      rw [List.isEmpty_iff]
      exact hne
    rw [if_neg hnotempty, hreq]
    simp only [Bool.false_eq_true, if_false]
    have hdd : ((nonEmptyConfigs configs).map
        (fun kv : String × List String => kv.2.length)).dedup = [L] := by
      apply dedup_eq_single
      · simpa using hne
      · intro x hx
        obtain ⟨kv, hkv, rfl⟩ := List.mem_map.mp hx
        exact hall kv hkv
    rw [hdd]
    simp

theorem validate_paired_configs_spec_witness :
    validate_paired_configs [("a", ["x"]), ("b", ["y"])] "c" none = (true, 1) :=
  validate_paired_configs_spec.2.2.2.1 [("a", ["x"]), ("b", ["y"])] "c" none 1
    (by decide) (by decide) (by decide)

theorem annotateBatches_spec (ft : Platform) (maxB : Int) (total : Nat) :
    ∀ (cs : List String) (i : Nat),
      (annotateBatches ft maxB total i cs).length = cs.length ∧
      ∀ k, k < cs.length →
        (annotateBatches ft maxB total i cs).getD k "" =
          get_batch_header ft (i + k) total ++
            (if ((utf8Len (get_batch_header ft (i + k) total) : Int) +
                utf8Len (cs.getD k "")) > maxB then
              truncate_to_bytes (cs.getD k "")
                (maxB - utf8Len (get_batch_header ft (i + k) total))
            else cs.getD k "") := by
  intro cs
  induction cs with
  | nil =>
    intro i
    exact ⟨rfl, by intro k hk; cases hk⟩
  | cons c cs ih =>
    intro i
    refine ⟨by simp [annotateBatches, (ih (i + 1)).1], ?_⟩
    intro k hk
    cases k with
    | zero =>
      simp only [annotateBatches, List.getD_cons_zero, Nat.add_zero]
      congr 1
      exact if_congr (by omega) rfl rfl
    | succ k =>
      have hk2 : k < cs.length := by simpa using hk
      have := (ih (i + 1)).2 k hk2
      simp only [annotateBatches, List.getD_cons_succ]
      rw [this]
      have harith : i + 1 + k = i + (k + 1) := by omega
      rw [harith]

/-- C9: `add_batch_headers` returns its input unchanged when it holds at
most one batch; for `N > 1` batches the `i`-th output is the channel's
`[batch i/N]` marker prepended to the `i`-th input, the content being
truncated exactly when marker plus content would exceed the raw byte
budget. -/
theorem add_batch_headers_spec :
    ∀ (batches : List String) (ft : Platform) (maxB : Int),
      (batches.length ≤ 1 → add_batch_headers batches ft maxB = batches) ∧
      (1 < batches.length →
        (add_batch_headers batches ft maxB).length = batches.length ∧
        ∀ k, k < batches.length →
          (add_batch_headers batches ft maxB).getD k "" =
            get_batch_header ft (k + 1) batches.length ++
              (if ((utf8Len (get_batch_header ft (k + 1) batches.length) : Int) +
                  utf8Len (batches.getD k "")) > maxB then
                truncate_to_bytes (batches.getD k "")
                  (maxB - utf8Len (get_batch_header ft (k + 1) batches.length))
              else batches.getD k "")) := by
  intro batches ft maxB
  constructor
  · intro hle
    unfold add_batch_headers
    rw [if_pos hle]
  · intro hgt
    have hne : ¬ batches.length ≤ 1 := by omega
    unfold add_batch_headers
    rw [if_neg hne]
    obtain ⟨hlen, hget⟩ := annotateBatches_spec ft maxB batches.length batches 1
    refine ⟨hlen, ?_⟩
    intro k hk
    have := hget k hk
    rwa [Nat.add_comm 1 k] at this

theorem add_batch_headers_spec_witness :
    add_batch_headers ["ab"] Platform.telegram 100 = ["ab"] ∧
      (add_batch_headers ["a", "b"] Platform.telegram 100).length = 2 :=
  ⟨(add_batch_headers_spec ["ab"] Platform.telegram 100).1 (by decide),
    ((add_batch_headers_spec ["a", "b"] Platform.telegram 100).2 (by decide)).1⟩

/-- C10: `format_title_for_platform` is a pure function: two calls with
identical `(platform, title_data, show_source)` arguments return identical
strings.  In this embedding `TitleData` is immutable by construction, so no
call can modify its argument (the source likewise only reads the
dictionary). -/
theorem format_title_for_platform_deterministic :
    ∀ (p : Platform) (t : TitleData) (s : Bool)
      (p2 : Platform) (t2 : TitleData) (s2 : Bool),
      p = p2 → t = t2 → s = s2 →
      format_title_for_platform p t s = format_title_for_platform p2 t2 s2 := by
  intro p t s p2 t2 s2 hp ht hs
  subst hp
  subst ht
  subst hs
  rfl

theorem format_title_for_platform_deterministic_witness :
    format_title_for_platform Platform.feishu dTitle true =
      format_title_for_platform Platform.feishu dTitle true :=
  format_title_for_platform_deterministic Platform.feishu dTitle true
    Platform.feishu dTitle true rfl rfl rfl

theorem truncScan_spec (tr : List Nat) : ∀ (fuel i : Nat),
    (∃ k, k < fuel ∧
      decodeStr (tr.take (tr.length - (i + k))) = some (truncScan tr i fuel) ∧
      ∀ j, j < k → decodeStr (tr.take (tr.length - (i + j))) = none) ∨
    (truncScan tr i fuel = "" ∧
      ∀ j, j < fuel → decodeStr (tr.take (tr.length - (i + j))) = none) := by
  intro fuel
  induction fuel with
  | zero =>
    intro i
    right
    exact ⟨rfl, fun j hj => absurd hj (by omega)⟩
  | succ fuel ih =>
    intro i
    cases hd : decodeStr (tr.take (tr.length - i)) with
    | some s =>
      left
      refine ⟨0, by omega, ?_, fun j hj => absurd hj (by omega)⟩
      simp only [truncScan, hd, Nat.add_zero]
    | none =>
      have hstep : truncScan tr i (fuel + 1) = truncScan tr (i + 1) fuel := by
        simp only [truncScan, hd]
      rcases ih (i + 1) with ⟨k, hk, hdec, hprev⟩ | ⟨hempty, hall⟩
      · left
        refine ⟨k + 1, by omega, ?_, ?_⟩
        · rw [hstep]
          have harith : i + (k + 1) = i + 1 + k := by omega
          rw [harith]
          exact hdec
        · intro j hj
          cases j with
          | zero => simpa using hd
          | succ j =>
            have := hprev j (by omega)
            have harith : i + (j + 1) = i + 1 + j := by omega
            rw [harith]
            exact this
      · right
        refine ⟨by rw [hstep]; exact hempty, ?_⟩
        intro j hj
        cases j with
        | zero => simpa using hd
        | succ j =>
          have := hall j (by omega)
          have harith : i + (j + 1) = i + 1 + j := by omega
          rw [harith]
          exact this

theorem truncScan_len_le (tr : List Nat) (fuel i : Nat) :
    utf8Len (truncScan tr i fuel) ≤ tr.length := by
  rcases truncScan_spec tr fuel i with ⟨k, _, hdec, _⟩ | ⟨hempty, _⟩
  · calc utf8Len (truncScan tr i fuel)
        = (tr.take (tr.length - (i + k))).length := utf8Len_decodeStr hdec
      _ ≤ tr.length := by rw [List.length_take]; omega
  · rw [hempty]
    exact Nat.zero_le _

theorem pySliceTo_natCast (l : List Nat) (m : Nat) :
    pySliceTo l (m : Int) = l.take m := by
  unfold pySliceTo
  rw [if_neg (by omega), Int.toNat_natCast]

/-- C7: `_truncate_to_bytes` returns the text unchanged when its UTF-8
encoding fits in `max_bytes`; otherwise it cuts the encoding to `max_bytes`
bytes and scans backward over at most `min 4 (length)` candidate prefixes
for the longest one that strictly decodes as UTF-8, returning that decoded
prefix, or the empty string when every scanned prefix fails to decode.  The
result (a `String`, hence valid text by construction) always has UTF-8
length at most `max_bytes`. -/
theorem truncate_to_bytes_spec : ∀ (text : String) (m : Nat),
    (utf8Len text ≤ m → truncate_to_bytes text (m : Int) = text) ∧
    (m < utf8Len text →
      ((∃ i, i < min 4 ((pyEncode text).take m).length ∧
          decodeStr (((pyEncode text).take m).take (((pyEncode text).take m).length - i))
            = some (truncate_to_bytes text (m : Int)) ∧
          ∀ j, j < i →
            decodeStr (((pyEncode text).take m).take
              (((pyEncode text).take m).length - j)) = none) ∨
        (truncate_to_bytes text (m : Int) = "" ∧
          ∀ j, j < min 4 ((pyEncode text).take m).length →
            decodeStr (((pyEncode text).take m).take
              (((pyEncode text).take m).length - j)) = none))) ∧
    utf8Len (truncate_to_bytes text (m : Int)) ≤ m := by
  intro text m
  have hlen : (pyEncode text).length = utf8Len text := pyEncode_length text
  by_cases hfit : utf8Len text ≤ m
  · have heq : truncate_to_bytes text (m : Int) = text := by
      unfold truncate_to_bytes
      rw [if_pos (by omega)]
    exact ⟨fun _ => heq, fun hlt => absurd hlt (by omega), by rw [heq]; exact hfit⟩
  · have heq : truncate_to_bytes text (m : Int) =
        truncScan ((pyEncode text).take m) 0
          (min 4 ((pyEncode text).take m).length) := by
      unfold truncate_to_bytes
      rw [if_neg (by omega), pySliceTo_natCast]
    refine ⟨fun hle => absurd hle hfit, fun _ => ?_, ?_⟩
    · rw [heq]
      rcases truncScan_spec ((pyEncode text).take m)
          (min 4 ((pyEncode text).take m).length) 0 with
        ⟨k, hk, hdec, hprev⟩ | ⟨hempty, hall⟩
      · left
        refine ⟨k, hk, ?_, ?_⟩
        · simpa using hdec
        · intro j hj
          simpa using hprev j hj
      · right
        refine ⟨hempty, ?_⟩
        intro j hj
        simpa using hall j hj
    · rw [heq]
      calc utf8Len _ ≤ ((pyEncode text).take m).length := truncScan_len_le _ _ _
        _ ≤ m := by rw [List.length_take]; omega

theorem truncate_to_bytes_spec_witness :
    truncate_to_bytes "ab" (4 : Nat) = "ab" ∧
      utf8Len (truncate_to_bytes "中文" (4 : Nat)) ≤ 4 :=
  ⟨(truncate_to_bytes_spec "ab" 4).1 (by decide),
    (truncate_to_bytes_spec "中文" 4).2.2⟩

theorem statsItemsLoop_hasContent (ctx : Ctx) (maxB : Int) (i : Nat) :
    ∀ (ts : List TitleData) (j : Nat) (st : PackSt), st.hasContent = true →
      (statsItemsLoop ctx maxB i ts j st).hasContent = true := by
  intro ts
  induction ts with
  | nil => intro j st h; exact h
  | cons t ts ih =>
    intro j st h
    simp only [statsItemsLoop]
    split
    · exact ih (j + 1) _ rfl
    · exact ih (j + 1) _ rfl

theorem statsGroupsLoop_hasContent (ctx : Ctx) (maxB : Int) :
    ∀ (stl : List StatItem) (i : Nat) (st : PackSt), st.hasContent = true →
      (statsGroupsLoop ctx maxB stl i st).hasContent = true := by
  intro stl
  induction stl with
  | nil => intro i st h; exact h
  | cons stat rest ih =>
    intro i st h
    simp only [statsGroupsLoop]
    apply ih
    simp only [statsGroupStep]
    repeat' split
    all_goals
      exact statsItemsLoop_hasContent ctx maxB i _ _ _ (by first | (split <;> rfl) | rfl)

theorem process_stats_hasContent_mono (ctx : Ctx) (maxB : Int) (st : PackSt)
    (h : st.hasContent = true) :
    (process_stats_section ctx maxB st).hasContent = true := by
  unfold process_stats_section
  split
  · exact h
  · apply statsGroupsLoop_hasContent
    split <;> rfl

theorem process_stats_hasContent_on (ctx : Ctx) (maxB : Int) (st : PackSt)
    (hne : ¬ ctx.rd.stats.isEmpty) :
    (process_stats_section ctx maxB st).hasContent = true := by
  unfold process_stats_section
  rw [if_neg (by simpa using hne)]
  apply statsGroupsLoop_hasContent
  split <;> rfl

theorem srcItemsLoop_hasContent (ctx : Ctx) (maxB : Int) (i : Nat) :
    ∀ (ts : List TitleData) (j : Nat) (st : PackSt), st.hasContent = true →
      (srcItemsLoop ctx maxB i ts j st).hasContent = true := by
  intro ts
  induction ts with
  | nil => intro j st h; exact h
  | cons t ts ih =>
    intro j st h
    simp only [srcItemsLoop]
    split
    · exact ih (j + 1) _ rfl
    · exact ih (j + 1) _ rfl

theorem srcGroupsLoop_hasContent (ctx : Ctx) (maxB : Int) :
    ∀ (gl : List SourceGroup) (i : Nat) (st : PackSt), st.hasContent = true →
      (srcGroupsLoop ctx maxB gl i st).hasContent = true := by
  intro gl
  induction gl with
  | nil => intro i st h; exact h
  | cons sd rest ih =>
    intro i st h
    simp only [srcGroupsLoop]
    apply ih
    simp only [srcGroupStep]
    repeat' split
    all_goals
      exact srcItemsLoop_hasContent ctx maxB i _ _ _ (by first | (split <;> rfl) | rfl)

theorem process_new_titles_hasContent_mono (ctx : Ctx) (maxB : Int) (st : PackSt)
    (h : st.hasContent = true) :
    (process_new_titles_section ctx maxB st).hasContent = true := by
  unfold process_new_titles_section
  split
  · exact h
  · apply srcGroupsLoop_hasContent
    split <;> rfl

theorem process_new_titles_hasContent_on (ctx : Ctx) (maxB : Int) (st : PackSt)
    (hne : ¬ ctx.rd.new_titles.isEmpty) :
    (process_new_titles_section ctx maxB st).hasContent = true := by
  unfold process_new_titles_section
  rw [if_neg (by simpa using hne)]
  apply srcGroupsLoop_hasContent
  split <;> rfl

theorem failedLoop_hasContent (ctx : Ctx) (maxB : Int) :
    ∀ (ts : List String) (i : Nat) (st : PackSt), st.hasContent = true →
      (failedLoop ctx maxB ts i st).hasContent = true := by
  intro ts
  induction ts with
  | nil => intro i st h; exact h
  | cons t ts ih =>
    intro i st h
    simp only [failedLoop]
    split
    · exact ih (i + 1) _ rfl
    · exact ih (i + 1) _ rfl

theorem process_failed_hasContent_mono (ctx : Ctx) (maxB : Int) (st : PackSt)
    (h : st.hasContent = true) :
    (process_failed_section ctx maxB st).hasContent = true := by
  unfold process_failed_section
  split
  · exact h
  · apply failedLoop_hasContent
    split <;> rfl

theorem process_failed_hasContent_on (ctx : Ctx) (maxB : Int) (st : PackSt)
    (hne : ¬ ctx.rd.failed_ids.isEmpty) :
    (process_failed_section ctx maxB st).hasContent = true := by
  unfold process_failed_section
  rw [if_neg (by simpa using hne)]
  apply failedLoop_hasContent
  split <;> rfl

theorem process_stats_id (ctx : Ctx) (maxB : Int) (st : PackSt)
    (h : ctx.rd.stats.isEmpty) : process_stats_section ctx maxB st = st := by
  unfold process_stats_section
  rw [if_pos h]

theorem process_new_titles_id (ctx : Ctx) (maxB : Int) (st : PackSt)
    (h : ctx.rd.new_titles.isEmpty) : process_new_titles_section ctx maxB st = st := by
  unfold process_new_titles_section
  rw [if_pos h]

/-- C8: an all-empty report yields exactly one batch equal to the base
header followed by the mode-specific "no matching results" sentence and
the base footer, for every byte budget; and the returned batch list is
never empty. -/
theorem split_content_nonempty_spec : ∀ (ctx : Ctx) (maxB : Int),
    ((ctx.rd.stats = [] ∧ ctx.rd.new_titles = [] ∧ ctx.rd.failed_ids = []) →
      split_content_into_batches ctx maxB =
        [base_header ctx.ft (totalTitles ctx.rd) ctx.nowStr ++
          ("📭 " ++ modeText ctx.mode ++ "\n\n") ++
          base_footer ctx.ft ctx.nowStr ctx.update_info]) ∧
    split_content_into_batches ctx maxB ≠ [] := by
  intro ctx maxB
  constructor
  · rintro ⟨h1, h2, h3⟩
    unfold split_content_into_batches split_pieces
    rw [if_pos (by simp [h1, h2, h3])]
    rfl
  · unfold split_content_into_batches split_pieces
    by_cases hcond : (ctx.rd.stats.isEmpty && ctx.rd.new_titles.isEmpty &&
        ctx.rd.failed_ids.isEmpty) = true
    · rw [if_pos hcond]
      simp
    · rw [if_neg hcond]
      simp only [Bool.and_eq_true, not_and_or, Bool.not_eq_true] at hcond
      have hhas : (process_failed_section ctx maxB
          (if ctx.cfg.reverse_content_order then
            process_stats_section ctx maxB
              (process_new_titles_section ctx maxB
                { cur := [Piece.baseHeader], hasContent := false, batches := [] })
          else
            process_new_titles_section ctx maxB
              (process_stats_section ctx maxB
                { cur := [Piece.baseHeader], hasContent := false,
                  batches := [] }))).hasContent = true := by
        by_cases hs : ctx.rd.stats.isEmpty
        · by_cases hn : ctx.rd.new_titles.isEmpty
          · have hf : ¬ ctx.rd.failed_ids.isEmpty := by
              rcases hcond with (h | h) | h
              · exact absurd hs (by simp [h])
              · exact absurd hn (by simp [h])
              · simp [h]
            exact process_failed_hasContent_on ctx maxB _ hf
          · apply process_failed_hasContent_mono
            split
            · apply process_stats_hasContent_mono
              exact process_new_titles_hasContent_on ctx maxB _ hn
            · exact process_new_titles_hasContent_on ctx maxB _ hn
        · apply process_failed_hasContent_mono
          split
          · exact process_stats_hasContent_on ctx maxB _ hs
          · apply process_new_titles_hasContent_mono
            exact process_stats_hasContent_on ctx maxB _ hs
      rw [if_pos hhas]
      simp

theorem split_content_nonempty_spec_witness :
    split_content_into_batches
        ⟨⟨[], [], [], 0⟩, Platform.telegram, ⟨"", false⟩, "t", none, Mode.daily⟩ 100 =
      [base_header Platform.telegram 0 "t" ++ ("📭 " ++ modeText Mode.daily ++ "\n\n")
        ++ base_footer Platform.telegram "t" none] :=
  (split_content_nonempty_spec
    ⟨⟨[], [], [], 0⟩, Platform.telegram, ⟨"", false⟩, "t", none, Mode.daily⟩ 100).1
    ⟨rfl, rfl, rfl⟩

theorem allBatchesLoop_eq_true_iff (tr : Nat → Bool) :
    ∀ (bs : List String) (k : Nat),
      allBatchesLoop tr k bs = true ↔ (∀ j, j < bs.length → tr (k + j) = true) := by
  intro bs
  induction bs with
  | nil =>
    intro k
    simp [allBatchesLoop]
  | cons b bs ih =>
    intro k
    simp only [allBatchesLoop]
    by_cases h : tr k
    · rw [if_pos h, ih (k + 1)]
      constructor
      · intro hall j hj
        cases j with
        | zero => simpa using h
        | succ j =>
          have := hall j (by simpa using hj)
          have harith : k + 1 + j = k + (j + 1) := by omega
          rwa [harith] at this
      · intro hall j hj
        have := hall (j + 1) (by simpa using hj)
        have harith : k + (j + 1) = k + 1 + j := by omega
        rwa [harith] at this
    · rw [if_neg h]
      constructor
      · intro hc
        cases hc
      · intro hall
        exact absurd (by simpa using hall 0 (by simp)) h

theorem countAccepted_pos_iff (acc : Nat → Bool) :
    ∀ (bs : List String) (k : Nat),
      0 < countAccepted acc k bs ↔ (∃ j, j < bs.length ∧ acc (k + j) = true) := by
  intro bs
  induction bs with
  | nil =>
    intro k
    simp [countAccepted]
  | cons b bs ih =>
    intro k
    simp only [countAccepted]
    by_cases h : acc k
    · rw [if_pos h]
      constructor
      · intro _
        exact ⟨0, by simp, by simpa using h⟩
      · intro _
        omega
    · rw [if_neg h]
      simp only [Nat.zero_add]
      rw [ih (k + 1)]
      constructor
      · rintro ⟨j, hj, hacc⟩
        refine ⟨j + 1, by simp only [List.length_cons]; omega, ?_⟩
        have harith : k + (j + 1) = k + 1 + j := by omega
        rwa [harith]
      · rintro ⟨j, hj, hacc⟩
        cases j with
        | zero => exact absurd (by simpa using hacc) h
        | succ j =>
          refine ⟨j, by simp only [List.length_cons] at hj; omega, ?_⟩
          have harith : k + 1 + j = k + (j + 1) := by omega
          rwa [harith]

/-- C3 (amended): `send_to_ntfy` returns `true` exactly when at least one
of the account's batches is accepted (directly or on the one 429 retry),
while `send_to_telegram` and `send_to_feishu` (like the other
stop-on-first-failure senders) return `true` exactly when every batch is
accepted. -/
theorem sender_acceptance_semantics :
    ∀ (rd : ReportData) (cfg : PackCfg) (nowStr : String) (ui : Option UpdateInfo)
      (mode : Mode) (szT szF : Int) (useCompat : Bool)
      (trT trF : Nat → Bool) (trN : Nat → NtfyResp),
      (send_to_telegram rd cfg nowStr ui mode szT trT = true ↔
        ∀ j, j < (telegramBatches rd cfg nowStr ui mode szT).length → trT j = true) ∧
      (send_to_feishu rd cfg nowStr ui mode szF useCompat trF = true ↔
        ∀ j, j < (feishuBatches rd cfg nowStr ui mode szF useCompat).length →
          trF j = true) ∧
      (send_to_ntfy rd cfg nowStr ui mode trN = true ↔
        ∃ j, j < (ntfyBatches rd cfg nowStr ui mode).length ∧
          ntfyAccepted (trN j) = true) := by
  intro rd cfg nowStr ui mode szT szF useCompat trT trF trN
  refine ⟨?_, ?_, ?_⟩
  · unfold send_to_telegram
    rw [allBatchesLoop_eq_true_iff]
    simp
  · unfold send_to_feishu
    rw [allBatchesLoop_eq_true_iff]
    simp
  · unfold send_to_ntfy
    rw [decide_eq_true_iff, countAccepted_pos_iff]
    simp

/-- Concrete report with two telegram batches at budget 230. -/
def twoBatchTitle (s : String) : TitleData :=
  { title := s, source_name := "src", url := "u", mobile_url := "", ranks := [1],
    rank_threshold := 10, time_display := "", count := 1, is_new := false }

def twoBatchRd : ReportData :=
  { stats := [⟨"AI", 12, [twoBatchTitle "aaaaaaaaaaaaaaaaaaaaaaaaaaaaaa",
      twoBatchTitle "bbbbbbbbbbbbbbbbbbbbbbbbbbbbbb"]⟩],
    new_titles := [], failed_ids := [], total_new_count := 0 }

theorem sender_acceptance_claim_cex :
    ¬ (send_to_telegram twoBatchRd ⟨"", false⟩ "2025-01-01 00:00:00" none Mode.daily
        230 (fun k => decide (k = 0)) = true ↔
      ∃ j, j < (telegramBatches twoBatchRd ⟨"", false⟩ "2025-01-01 00:00:00" none
          Mode.daily 230).length ∧ decide (j = 0) = true) := by
  decide

/-- C4: with the push window enabled, a current time outside `[start, end)`,
or an existing today-record while once-per-day is enabled, suppresses the
whole run: the result map is empty, no channel send function is invoked,
and no push record is written. -/
theorem push_window_suppression :
    ∀ (cfg : NotifyConfig) (tr : Transports) (nowMinutes : Nat) (pushedToday : Bool)
      (stats : List StatItem) (failed_ids : List String)
      (new_titles : List SourceGroup) (ui : Option UpdateInfo) (mode : Mode)
      (nowStr : String),
      cfg.push_window_enabled = true →
      (is_in_time_range cfg.push_window_start cfg.push_window_end nowMinutes = false ∨
        (cfg.once_per_day = true ∧ pushedToday = true)) →
      send_to_notifications cfg tr nowMinutes pushedToday stats failed_ids new_titles
        ui mode nowStr = ([], [], false) := by
  intro cfg tr nowMinutes pushedToday stats failed_ids new_titles ui mode nowStr
    hen hsup
  by_cases hr : is_in_time_range cfg.push_window_start cfg.push_window_end nowMinutes
      = true
  · have honce : cfg.once_per_day = true ∧ pushedToday = true := by
      rcases hsup with h | h
      · rw [hr] at h
        cases h
      · exact h
    unfold send_to_notifications
    rw [if_neg (by simp [hen, hr]), if_pos ⟨by simp [hen], honce.1, honce.2⟩]
  · unfold send_to_notifications
    rw [if_pos ⟨by simp [hen], by simpa using hr⟩]

def suppressedTransports : Transports :=
  ⟨fun _ _ => false, fun _ _ => false, fun _ _ => false, fun _ _ => false,
    fun _ _ => false, fun _ _ => NtfyResp.failed, fun _ _ => false, fun _ => none,
    fun _ _ => false, false⟩

def windowConfig : NotifyConfig :=
  { max_accounts_per_channel := 3, push_window_enabled := true,
    push_window_start := 480, push_window_end := 1320, once_per_day := true,
    show_version_update := false, feishu_webhook_url := "",
    feishu_outside_webhook_url := "", dingtalk_webhook_url := "",
    wework_webhook_url := "", wework_msg_type := "markdown",
    telegram_bot_token := "", telegram_chat_id := "", ntfy_server_url := "",
    ntfy_topic := "", ntfy_token := "", bark_url := "", slack_webhook_url := "",
    email_from := "", email_password := "", email_to := "",
    message_batch_size := 4000, dingtalk_batch_size := 20000,
    feishu_batch_size := 29000, bark_batch_size := 3600, slack_batch_size := 4000,
    pack := ⟨"", false⟩ }

theorem push_window_suppression_witness :
    send_to_notifications windowConfig suppressedTransports 479 false [] [] [] none
      Mode.daily "" = ([], [], false) :=
  push_window_suppression windowConfig suppressedTransports 479 false [] [] [] none
    Mode.daily "" rfl (Or.inl (by decide))

theorem utf8Len_truncate_le (text : String) (m : Nat) :
    utf8Len (truncate_to_bytes text (m : Int)) ≤ m := by
  by_cases h : ((pyEncode text).length : Int) ≤ (m : Int)
  · have heq : truncate_to_bytes text (m : Int) = text := by
      unfold truncate_to_bytes
      rw [if_pos h]
    rw [heq]
    have := pyEncode_length text
    omega
  · have heq : truncate_to_bytes text (m : Int) =
        truncScan ((pyEncode text).take m) 0 (min 4 ((pyEncode text).take m).length) := by
      unfold truncate_to_bytes
      rw [if_neg h, pySliceTo_natCast]
    rw [heq]
    calc utf8Len _ ≤ ((pyEncode text).take m).length := truncScan_len_le _ _ _
      _ ≤ m := by rw [List.length_take]; omega

theorem utf8Len_truncate_le_int (text : String) (m : Int) (h : 0 ≤ m) :
    (utf8Len (truncate_to_bytes text m) : Int) ≤ m := by
  obtain ⟨n, rfl⟩ := Int.eq_ofNat_of_zero_le h
  exact_mod_cast utf8Len_truncate_le text n

theorem annotateBatches_le (ft : Platform) (maxB : Int) (total : Nat) :
    ∀ (cs : List String) (i : Nat),
      (∀ k, k < cs.length → (utf8Len (get_batch_header ft (i + k) total) : Int) ≤ maxB)
      → ∀ p ∈ annotateBatches ft maxB total i cs, (utf8Len p : Int) ≤ maxB := by
  intro cs
  induction cs with
  | nil =>
    intro i _ p hp
    cases hp
  | cons c cs ih =>
    intro i hh p hp
    rcases List.mem_cons.mp hp with rfl | hm
    · have hs : (utf8Len (get_batch_header ft (i + 0) total) : Int) ≤ maxB :=
        hh 0 (by simp)
      rw [Nat.add_zero] at hs
      rw [utf8Len_append]
      split_ifs with hbig
      · have := utf8Len_truncate_le_int c
          (maxB - (utf8Len (get_batch_header ft i total) : Int)) (by omega)
        push_cast
        omega
      · push_cast
        omega
    · apply ih (i + 1) _ p hm
      intro k hk
      have := hh (k + 1) (by simp only [List.length_cons]; omega)
      have harith : i + (k + 1) = i + 1 + k := by omega
      rwa [harith] at this

/-- C1 (amended): when the packer produces at least two batches, and the
channel's batch marker itself fits in the raw byte budget, every payload
emitted by the packing-and-annotation pipeline has UTF-8 byte length at most
the profile's byte budget.  (A single-batch report is returned unannotated
and untruncated and can exceed the budget, as the counterexample shows.) -/
theorem pipeline_budget_amended :
    ∀ (ctx : Ctx) (budget : Int),
      2 ≤ (split_content_into_batches ctx
        (budget - get_max_batch_header_size ctx.ft)).length →
      (∀ i, 1 ≤ i →
        i ≤ (split_content_into_batches ctx
          (budget - get_max_batch_header_size ctx.ft)).length →
        (utf8Len (get_batch_header ctx.ft i
          (split_content_into_batches ctx
            (budget - get_max_batch_header_size ctx.ft)).length) : Int) ≤ budget) →
      ∀ p ∈ add_batch_headers
          (split_content_into_batches ctx (budget - get_max_batch_header_size ctx.ft))
          ctx.ft budget,
        (utf8Len p : Int) ≤ budget := by
  intro ctx budget h2 hh p hp
  unfold add_batch_headers at hp
  rw [if_neg (by omega)] at hp
  refine annotateBatches_le ctx.ft budget _ _ 1 ?_ p hp
  intro k hk
  exact hh (1 + k) (by omega) (by omega)

/-- The empty-report context of the counterexample: no stats, no new
titles, no failed sources, telegram format, byte budget 50. -/
def emptyReportCtx : Ctx :=
  ⟨⟨[], [], [], 0⟩, Platform.telegram, ⟨"", false⟩, "2025-01-01 00:00:00", none,
    Mode.daily⟩

def emptyReportPayloads : List String :=
  add_batch_headers
    (split_content_into_batches emptyReportCtx
      ((50 : Int) - get_max_batch_header_size Platform.telegram))
    Platform.telegram 50

set_option maxRecDepth 4000 in
theorem pipeline_budget_claim_cex :
    emptyReportPayloads.getD 0 "" ∈ emptyReportPayloads ∧
      (50 : Int) < utf8Len (emptyReportPayloads.getD 0 "") := by
  decide

def twoBatchCtx : Ctx :=
  ⟨twoBatchRd, Platform.telegram, ⟨"", false⟩, "2025-01-01 00:00:00", none, Mode.daily⟩

set_option maxRecDepth 8000 in
theorem pipeline_budget_amended_witness :
    (utf8Len ((add_batch_headers
      (split_content_into_batches twoBatchCtx
        ((230 : Int) - get_max_batch_header_size Platform.telegram))
      Platform.telegram 230).getD 0 "") : Int) ≤ 230 :=
  pipeline_budget_amended twoBatchCtx 230 (by decide) (by decide) _ (by decide)

/-! ## C2: heading/first-item atomicity

`firstOkP W F L` says: in the batch list `L`, the first batch containing the
piece `W` (if any) also contains the piece `F`. -/

def firstOkP (W F : Piece) : List (List Piece) → Prop
  | [] => True
  | b :: bs => if W ∈ b then F ∈ b else firstOkP W F bs

/-- No occurrence of `W` anywhere in the state (before the group's atomic
step). -/
def NoW (W : Piece) (st : PackSt) : Prop :=
  (∀ b ∈ st.batches, W ∉ b) ∧ W ∉ st.cur

/-- Invariant after the group's atomic step: the flag is set, the first
batch holding `W` also holds `F`, and `W` occurs somewhere. -/
def InvW (W F : Piece) (st : PackSt) : Prop :=
  st.hasContent = true ∧ firstOkP W F (st.batches ++ [st.cur]) ∧
    (W ∈ st.cur ∨ ∃ b ∈ st.batches, W ∈ b)

theorem firstOkP_extend {W F : Piece} :
    ∀ {L : List (List Piece)}, firstOkP W F L → (∃ b ∈ L, W ∈ b) →
      ∀ (M : List (List Piece)), firstOkP W F (L ++ M) := by
  intro L
  induction L with
  | nil =>
    rintro _ ⟨b, hb, _⟩ M
    cases hb
  | cons a as ih =>
    intro hfo hex M
    simp only [firstOkP] at hfo
    simp only [List.cons_append, firstOkP]
    by_cases hWa : W ∈ a
    · rw [if_pos hWa] at hfo ⊢
      exact hfo
    · rw [if_neg hWa] at hfo ⊢
      apply ih hfo
      obtain ⟨b, hb, hWb⟩ := hex
      rcases List.mem_cons.mp hb with rfl | hm
      · exact absurd hWb hWa
      · exact ⟨b, hm, hWb⟩

theorem firstOkP_app_last {W F : Piece} :
    ∀ {L : List (List Piece)} {c : List Piece}, firstOkP W F (L ++ [c]) →
      ∀ (ps : List Piece), W ∉ ps → firstOkP W F (L ++ [c ++ ps]) := by
  intro L
  induction L with
  | nil =>
    intro c hfo ps hps
    simp only [List.nil_append, firstOkP] at hfo ⊢
    by_cases hWc : W ∈ c
    · rw [if_pos hWc] at hfo
      rw [if_pos (List.mem_append_left ps hWc)]
      exact List.mem_append_left ps hfo
    · rw [if_neg hWc] at hfo
      rw [if_neg (by simp [hWc, hps])]
      trivial
  | cons a as ih =>
    intro c hfo ps hps
    simp only [List.cons_append, firstOkP] at hfo ⊢
    by_cases hWa : W ∈ a
    · rw [if_pos hWa] at hfo ⊢
      exact hfo
    · rw [if_neg hWa] at hfo ⊢
      exact ih hfo ps hps

theorem firstOkP_new {W F : Piece} :
    ∀ {L : List (List Piece)}, (∀ b ∈ L, W ∉ b) → ∀ {c : List Piece},
      (W ∈ c → F ∈ c) → firstOkP W F (L ++ [c]) := by
  intro L
  induction L with
  | nil =>
    intro _ c hc
    simp only [List.nil_append, firstOkP]
    by_cases hWc : W ∈ c
    · rw [if_pos hWc]
      exact hc hWc
    · rw [if_neg hWc]
      trivial
  | cons a as ih =>
    intro hall c hc
    simp only [List.cons_append, firstOkP]
    rw [if_neg (hall a (List.mem_cons_self a as))]
    exact ih (fun b hb => hall b (List.mem_cons_of_mem a hb)) hc

theorem firstOkP_getD {W F : Piece} :
    ∀ {L : List (List Piece)}, firstOkP W F L →
      ∀ k, k < L.length → W ∈ L.getD k [] → (∀ m, m < k → W ∉ L.getD m []) →
        F ∈ L.getD k [] := by
  intro L
  induction L with
  | nil =>
    intro _ k hk
    cases hk
  | cons a as ih =>
    intro hfo k hk hW hprev
    simp only [firstOkP] at hfo
    cases k with
    | zero =>
      simp only [List.getD_cons_zero] at hW ⊢
      rw [if_pos hW] at hfo
      exact hfo
    | succ k =>
      have hWa : W ∉ a := by
        have := hprev 0 (by omega)
        simpa using this
      rw [if_neg hWa] at hfo
      simp only [List.getD_cons_succ] at hW ⊢
      refine ih hfo k (by simpa using hk) hW ?_
      intro m hm
      have := hprev (m + 1) (by omega)
      simpa using this

theorem flushB_noW {W : Piece} {st : PackSt} (h : NoW W st)
    (hfoot : W ≠ Piece.footer) : ∀ b ∈ flushB st, W ∉ b := by
  intro b hb
  unfold flushB at hb
  split_ifs at hb with hc
  · rcases List.mem_append.mp hb with hm | hm
    · exact h.1 b hm
    · have : b = st.cur ++ [Piece.footer] := by simpa using hm
      subst this
      intro hWb
      rcases List.mem_append.mp hWb with hw | hw
      · exact h.2 hw
      · exact hfoot (by simpa using hw)
  · exact h.1 b hb

theorem noW_app {W : Piece} {st : PackSt} (h : NoW W st) {ps : List Piece}
    (hps : W ∉ ps) (flag : Bool) :
    NoW W ⟨st.cur ++ ps, flag, st.batches⟩ := by
  refine ⟨h.1, ?_⟩
  intro hw
  rcases List.mem_append.mp hw with hw | hw
  · exact h.2 hw
  · exact hps hw

theorem noW_reseed {W : Piece} {st : PackSt} (h : NoW W st) {rs : List Piece}
    (hrs : W ∉ rs) (hfoot : W ≠ Piece.footer) (flag : Bool) :
    NoW W ⟨rs, flag, flushB st⟩ :=
  ⟨flushB_noW h hfoot, hrs⟩

theorem invW_app {W F : Piece} {st : PackSt} (h : InvW W F st) {ps : List Piece}
    (hps : W ∉ ps) {flag : Bool} (hflag : flag = true) :
    InvW W F ⟨st.cur ++ ps, flag, st.batches⟩ := by
  refine ⟨hflag, ?_, ?_⟩
  · exact firstOkP_app_last h.2.1 ps hps
  · rcases h.2.2 with hw | hw
    · exact Or.inl (List.mem_append_left ps hw)
    · exact Or.inr hw

theorem invW_reseed {W F : Piece} {st : PackSt} (h : InvW W F st)
    (hfoot : W ≠ Piece.footer) (rs : List Piece) {flag : Bool} (hflag : flag = true) :
    InvW W F ⟨rs, flag, flushB st⟩ := by
  have hflush : flushB st = st.batches ++ [st.cur ++ [Piece.footer]] := by
    unfold flushB
    rw [if_pos h.1]
  refine ⟨hflag, ?_, ?_⟩
  · show firstOkP W F (flushB st ++ [rs])
    rw [hflush]
    apply firstOkP_extend
    · exact firstOkP_app_last h.2.1 [Piece.footer] (by simpa using hfoot)
    · rcases h.2.2 with hw | hw
      · exact ⟨st.cur ++ [Piece.footer], by simp, List.mem_append_left _ hw⟩
      · obtain ⟨b, hb, hWb⟩ := hw
        exact ⟨b, by simp [hb], hWb⟩
  · right
    rw [hflush]
    rcases h.2.2 with hw | hw
    · exact ⟨st.cur ++ [Piece.footer], by simp, List.mem_append_left _ hw⟩
    · obtain ⟨b, hb, hWb⟩ := hw
      exact ⟨b, by simp [hb], hWb⟩

theorem invW_establish {W F : Piece} {st : PackSt} (h : NoW W st)
    (hfoot : W ≠ Piece.footer) {c : List Piece} (hWc : W ∈ c) (hFc : F ∈ c)
    {bat : List (List Piece)} (hbat : bat = st.batches ∨ bat = flushB st) :
    InvW W F ⟨c, true, bat⟩ := by
  refine ⟨rfl, ?_, Or.inl hWc⟩
  show firstOkP W F (bat ++ [c])
  apply firstOkP_new
  · rcases hbat with rfl | rfl
    · exact h.1
    · exact flushB_noW h hfoot
  · intro _
    exact hFc

/-- The claim's heading pieces: a keyword-group heading or a new-titles
source heading. -/
def IsHeaderPiece (W : Piece) : Prop :=
  (∃ n, W = Piece.wordHeader n) ∨ (∃ n, W = Piece.srcHeader n)

theorem headerPiece_ne_footer {W : Piece} (h : IsHeaderPiece W) :
    W ≠ Piece.footer := by
  rcases h with ⟨n, rfl⟩ | ⟨n, rfl⟩ <;> simp

theorem invW_app_keep {W F : Piece} {st : PackSt} (h : InvW W F st) {ps : List Piece}
    (hps : W ∉ ps) :
    InvW W F ⟨st.cur ++ ps, st.hasContent, st.batches⟩ :=
  invW_app h hps h.1

/-- The separator attempt at the end of a stats group: an optional append
that never flushes. -/
theorem invW_optional_app {W F : Piece} {st : PackSt} (h : InvW W F st)
    {ps : List Piece} (hps : W ∉ ps) (P Q : Prop) [Decidable P] [Decidable Q] :
    InvW W F (if P then
      (if Q then ⟨st.cur ++ ps, st.hasContent, st.batches⟩ else st) else st) := by
  split
  · split
    · exact invW_app_keep h hps
    · exact h
  · exact h

theorem noW_optional_app {W : Piece} {st : PackSt} (h : NoW W st)
    {ps : List Piece} (hps : W ∉ ps) (P Q : Prop) [Decidable P] [Decidable Q] :
    NoW W (if P then
      (if Q then ⟨st.cur ++ ps, st.hasContent, st.batches⟩ else st) else st) := by
  split
  · split
    · exact noW_app h hps _
    · exact h
  · exact h

theorem statsItemsLoop_invW (ctx : Ctx) (maxB : Int) {W F : Piece}
    (hW : IsHeaderPiece W) (i : Nat) :
    ∀ (ts : List TitleData) (j : Nat) (st : PackSt), InvW W F st →
      InvW W F (statsItemsLoop ctx maxB i ts j st) := by
  intro ts
  induction ts with
  | nil => intro j st h; exact h
  | cons t ts ih =>
    intro j st h
    simp only [statsItemsLoop]
    split
    · exact ih (j + 1) _ (invW_reseed h (headerPiece_ne_footer hW) _ rfl)
    · refine ih (j + 1) _ (invW_app h ?_ rfl)
      rcases hW with ⟨n, rfl⟩ | ⟨n, rfl⟩ <;> simp
  
theorem statsItemsLoop_noW (ctx : Ctx) (maxB : Int) {W : Piece}
    (hW : IsHeaderPiece W) (i : Nat) (hne : W ≠ Piece.wordHeader i) :
    ∀ (ts : List TitleData) (j : Nat) (st : PackSt), NoW W st →
      NoW W (statsItemsLoop ctx maxB i ts j st) := by
  intro ts
  induction ts with
  | nil => intro j st h; exact h
  | cons t ts ih =>
    intro j st h
    simp only [statsItemsLoop]
    split
    · refine ih (j + 1) _ (noW_reseed h ?_ (headerPiece_ne_footer hW) _)
      rcases hW with ⟨n, rfl⟩ | ⟨n, rfl⟩ <;> simp_all
    · refine ih (j + 1) _ (noW_app h ?_ _)
      rcases hW with ⟨n, rfl⟩ | ⟨n, rfl⟩ <;> simp

theorem statsGroupStep_invW (ctx : Ctx) (maxB : Int) {W F : Piece}
    (hW : IsHeaderPiece W) (stat : StatItem) (i : Nat)
    (hne : W ≠ Piece.wordHeader i) (st : PackSt) (h : InvW W F st) :
    InvW W F (statsGroupStep ctx maxB stat i st) := by
  simp only [statsGroupStep]
  have h1 : InvW W F
      (if overflows ctx maxB (st.cur ++ [Piece.wordHeader i, Piece.wordFirst i]) then
        (⟨[Piece.baseHeader, Piece.statsHeader] ++
          [Piece.wordHeader i, Piece.wordFirst i], true, flushB st⟩ : PackSt)
      else ⟨st.cur ++ [Piece.wordHeader i, Piece.wordFirst i], true, st.batches⟩) := by
    split
    · exact invW_reseed h (headerPiece_ne_footer hW) _ rfl
    · refine invW_app h ?_ rfl
      rcases hW with ⟨n, rfl⟩ | ⟨n, rfl⟩ <;> simp_all
  have h2 := statsItemsLoop_invW ctx maxB hW i (stat.titles.drop 1) 1 _ h1
  have hsep : W ∉ [Piece.statsSep] := by
    rcases hW with ⟨n, rfl⟩ | ⟨n, rfl⟩ <;> simp
  exact invW_optional_app h2 hsep _ _

theorem statsGroupStep_noW (ctx : Ctx) (maxB : Int) {W : Piece}
    (hW : IsHeaderPiece W) (stat : StatItem) (i : Nat)
    (hne : W ≠ Piece.wordHeader i) (st : PackSt) (h : NoW W st) :
    NoW W (statsGroupStep ctx maxB stat i st) := by
  simp only [statsGroupStep]
  have h1 : NoW W
      (if overflows ctx maxB (st.cur ++ [Piece.wordHeader i, Piece.wordFirst i]) then
        (⟨[Piece.baseHeader, Piece.statsHeader] ++
          [Piece.wordHeader i, Piece.wordFirst i], true, flushB st⟩ : PackSt)
      else ⟨st.cur ++ [Piece.wordHeader i, Piece.wordFirst i], true, st.batches⟩) := by
    split
    · refine noW_reseed h ?_ (headerPiece_ne_footer hW) _
      rcases hW with ⟨n, rfl⟩ | ⟨n, rfl⟩ <;> simp_all
    · refine noW_app h ?_ _
      rcases hW with ⟨n, rfl⟩ | ⟨n, rfl⟩ <;> simp_all
  have h2 := statsItemsLoop_noW ctx maxB hW i hne (stat.titles.drop 1) 1 _ h1
  have hsep : W ∉ [Piece.statsSep] := by
    rcases hW with ⟨n, rfl⟩ | ⟨n, rfl⟩ <;> simp
  exact noW_optional_app h2 hsep _ _

theorem statsGroupStep_establish (ctx : Ctx) (maxB : Int) (stat : StatItem)
    (i0 : Nat) (st : PackSt) (h : NoW (Piece.wordHeader i0) st) :
    InvW (Piece.wordHeader i0) (Piece.wordFirst i0)
      (statsGroupStep ctx maxB stat i0 st) := by
  simp only [statsGroupStep]
  have h1 : InvW (Piece.wordHeader i0) (Piece.wordFirst i0)
      (if overflows ctx maxB (st.cur ++ [Piece.wordHeader i0, Piece.wordFirst i0]) then
        (⟨[Piece.baseHeader, Piece.statsHeader] ++
          [Piece.wordHeader i0, Piece.wordFirst i0], true, flushB st⟩ : PackSt)
      else ⟨st.cur ++ [Piece.wordHeader i0, Piece.wordFirst i0], true, st.batches⟩) := by
    split
    · exact invW_establish h (by simp) (by simp) (by simp) (Or.inr rfl)
    · exact invW_establish h (by simp) (by simp) (by simp) (Or.inl rfl)
  have h2 := statsItemsLoop_invW ctx maxB (Or.inl ⟨i0, rfl⟩) i0
    (stat.titles.drop 1) 1 _ h1
  exact invW_optional_app h2 (by simp) _ _

theorem statsGroupsLoop_invW (ctx : Ctx) (maxB : Int) {W F : Piece}
    (hW : IsHeaderPiece W) :
    ∀ (stl : List StatItem) (idx : Nat) (st : PackSt),
      (∀ k, idx ≤ k → W ≠ Piece.wordHeader k) → InvW W F st →
      InvW W F (statsGroupsLoop ctx maxB stl idx st) := by
  intro stl
  induction stl with
  | nil => intro idx st _ h; exact h
  | cons stat rest ih =>
    intro idx st hix h
    simp only [statsGroupsLoop]
    exact ih (idx + 1) _ (fun k hk => hix k (by omega))
      (statsGroupStep_invW ctx maxB hW stat idx (hix idx (by omega)) st h)

theorem statsGroupsLoop_noW (ctx : Ctx) (maxB : Int) {W : Piece}
    (hW : IsHeaderPiece W) :
    ∀ (stl : List StatItem) (idx : Nat) (st : PackSt),
      (∀ k, idx ≤ k → W ≠ Piece.wordHeader k) → NoW W st →
      NoW W (statsGroupsLoop ctx maxB stl idx st) := by
  intro stl
  induction stl with
  | nil => intro idx st _ h; exact h
  | cons stat rest ih =>
    intro idx st hix h
    simp only [statsGroupsLoop]
    exact ih (idx + 1) _ (fun k hk => hix k (by omega))
      (statsGroupStep_noW ctx maxB hW stat idx (hix idx (by omega)) st h)

theorem statsGroupsLoop_establish (ctx : Ctx) (maxB : Int) (i0 : Nat) :
    ∀ (stl : List StatItem) (idx : Nat) (st : PackSt),
      idx ≤ i0 → i0 < idx + stl.length → NoW (Piece.wordHeader i0) st →
      InvW (Piece.wordHeader i0) (Piece.wordFirst i0)
        (statsGroupsLoop ctx maxB stl idx st) := by
  intro stl
  induction stl with
  | nil =>
    intro idx st hle hlt
    simp only [List.length_nil] at hlt
    omega
  | cons stat rest ih =>
    intro idx st hle hlt h
    simp only [statsGroupsLoop]
    by_cases hit : idx = i0
    · subst hit
      apply statsGroupsLoop_invW ctx maxB (Or.inl ⟨idx, rfl⟩) rest (idx + 1) _
        (fun k hk => by simp only [ne_eq, Piece.wordHeader.injEq]; omega)
      exact statsGroupStep_establish ctx maxB stat idx st h
    · have hlt2 : idx < i0 := by omega
      refine ih (idx + 1) _ (by omega) (by simp only [List.length_cons] at hlt; omega) ?_
      refine statsGroupStep_noW ctx maxB (Or.inl ⟨i0, rfl⟩) stat idx ?_ st h
      simp only [ne_eq, Piece.wordHeader.injEq]
      omega

theorem srcItemsLoop_invW (ctx : Ctx) (maxB : Int) {W F : Piece}
    (hW : IsHeaderPiece W) (i : Nat) :
    ∀ (ts : List TitleData) (j : Nat) (st : PackSt), InvW W F st →
      InvW W F (srcItemsLoop ctx maxB i ts j st) := by
  intro ts
  induction ts with
  | nil => intro j st h; exact h
  | cons t ts ih =>
    intro j st h
    simp only [srcItemsLoop]
    split
    · exact ih (j + 1) _ (invW_reseed h (headerPiece_ne_footer hW) _ rfl)
    · refine ih (j + 1) _ (invW_app h ?_ rfl)
      rcases hW with ⟨n, rfl⟩ | ⟨n, rfl⟩ <;> simp

theorem srcItemsLoop_noW (ctx : Ctx) (maxB : Int) {W : Piece}
    (hW : IsHeaderPiece W) (i : Nat) (hne : W ≠ Piece.srcHeader i) :
    ∀ (ts : List TitleData) (j : Nat) (st : PackSt), NoW W st →
      NoW W (srcItemsLoop ctx maxB i ts j st) := by
  intro ts
  induction ts with
  | nil => intro j st h; exact h
  | cons t ts ih =>
    intro j st h
    simp only [srcItemsLoop]
    split
    · refine ih (j + 1) _ (noW_reseed h ?_ (headerPiece_ne_footer hW) _)
      rcases hW with ⟨n, rfl⟩ | ⟨n, rfl⟩ <;> simp_all
    · refine ih (j + 1) _ (noW_app h ?_ _)
      rcases hW with ⟨n, rfl⟩ | ⟨n, rfl⟩ <;> simp

theorem srcGroupStep_invW (ctx : Ctx) (maxB : Int) {W F : Piece}
    (hW : IsHeaderPiece W) (sd : SourceGroup) (i : Nat)
    (hne : W ≠ Piece.srcHeader i) (st : PackSt) (h : InvW W F st) :
    InvW W F (srcGroupStep ctx maxB sd i st) := by
  simp only [srcGroupStep]
  have h1 : InvW W F
      (if overflows ctx maxB (st.cur ++ [Piece.srcHeader i, Piece.srcFirst i]) then
        (⟨[Piece.baseHeader, Piece.newHeader] ++
          [Piece.srcHeader i, Piece.srcFirst i], true, flushB st⟩ : PackSt)
      else ⟨st.cur ++ [Piece.srcHeader i, Piece.srcFirst i], true, st.batches⟩) := by
    split
    · exact invW_reseed h (headerPiece_ne_footer hW) _ rfl
    · refine invW_app h ?_ rfl
      rcases hW with ⟨n, rfl⟩ | ⟨n, rfl⟩ <;> simp_all
  have h2 := srcItemsLoop_invW ctx maxB hW i (sd.titles.drop 1) 1 _ h1
  refine invW_app_keep h2 ?_
  rcases hW with ⟨n, rfl⟩ | ⟨n, rfl⟩ <;> simp

theorem srcGroupStep_noW (ctx : Ctx) (maxB : Int) {W : Piece}
    (hW : IsHeaderPiece W) (sd : SourceGroup) (i : Nat)
    (hne : W ≠ Piece.srcHeader i) (st : PackSt) (h : NoW W st) :
    NoW W (srcGroupStep ctx maxB sd i st) := by
  simp only [srcGroupStep]
  have h1 : NoW W
      (if overflows ctx maxB (st.cur ++ [Piece.srcHeader i, Piece.srcFirst i]) then
        (⟨[Piece.baseHeader, Piece.newHeader] ++
          [Piece.srcHeader i, Piece.srcFirst i], true, flushB st⟩ : PackSt)
      else ⟨st.cur ++ [Piece.srcHeader i, Piece.srcFirst i], true, st.batches⟩) := by
    split
    · refine noW_reseed h ?_ (headerPiece_ne_footer hW) _
      rcases hW with ⟨n, rfl⟩ | ⟨n, rfl⟩ <;> simp_all
    · refine noW_app h ?_ _
      rcases hW with ⟨n, rfl⟩ | ⟨n, rfl⟩ <;> simp_all
  have h2 := srcItemsLoop_noW ctx maxB hW i hne (sd.titles.drop 1) 1 _ h1
  refine noW_app h2 ?_ _
  rcases hW with ⟨n, rfl⟩ | ⟨n, rfl⟩ <;> simp

theorem srcGroupStep_establish (ctx : Ctx) (maxB : Int) (sd : SourceGroup)
    (i0 : Nat) (st : PackSt) (h : NoW (Piece.srcHeader i0) st) :
    InvW (Piece.srcHeader i0) (Piece.srcFirst i0)
      (srcGroupStep ctx maxB sd i0 st) := by
  simp only [srcGroupStep]
  have h1 : InvW (Piece.srcHeader i0) (Piece.srcFirst i0)
      (if overflows ctx maxB (st.cur ++ [Piece.srcHeader i0, Piece.srcFirst i0]) then
        (⟨[Piece.baseHeader, Piece.newHeader] ++
          [Piece.srcHeader i0, Piece.srcFirst i0], true, flushB st⟩ : PackSt)
      else ⟨st.cur ++ [Piece.srcHeader i0, Piece.srcFirst i0], true, st.batches⟩) := by
    split
    · exact invW_establish h (by simp) (by simp) (by simp) (Or.inr rfl)
    · exact invW_establish h (by simp) (by simp) (by simp) (Or.inl rfl)
  have h2 := srcItemsLoop_invW ctx maxB (Or.inr ⟨i0, rfl⟩) i0 (sd.titles.drop 1) 1 _ h1
  exact invW_app_keep h2 (by simp)

theorem srcGroupsLoop_invW (ctx : Ctx) (maxB : Int) {W F : Piece}
    (hW : IsHeaderPiece W) :
    ∀ (gl : List SourceGroup) (idx : Nat) (st : PackSt),
      (∀ k, idx ≤ k → W ≠ Piece.srcHeader k) → InvW W F st →
      InvW W F (srcGroupsLoop ctx maxB gl idx st) := by
  intro gl
  induction gl with
  | nil => intro idx st _ h; exact h
  | cons sd rest ih =>
    intro idx st hix h
    simp only [srcGroupsLoop]
    exact ih (idx + 1) _ (fun k hk => hix k (by omega))
      (srcGroupStep_invW ctx maxB hW sd idx (hix idx (by omega)) st h)

theorem srcGroupsLoop_noW (ctx : Ctx) (maxB : Int) {W : Piece}
    (hW : IsHeaderPiece W) :
    ∀ (gl : List SourceGroup) (idx : Nat) (st : PackSt),
      (∀ k, idx ≤ k → W ≠ Piece.srcHeader k) → NoW W st →
      NoW W (srcGroupsLoop ctx maxB gl idx st) := by
  intro gl
  induction gl with
  | nil => intro idx st _ h; exact h
  | cons sd rest ih =>
    intro idx st hix h
    simp only [srcGroupsLoop]
    exact ih (idx + 1) _ (fun k hk => hix k (by omega))
      (srcGroupStep_noW ctx maxB hW sd idx (hix idx (by omega)) st h)

theorem srcGroupsLoop_establish (ctx : Ctx) (maxB : Int) (i0 : Nat) :
    ∀ (gl : List SourceGroup) (idx : Nat) (st : PackSt),
      idx ≤ i0 → i0 < idx + gl.length → NoW (Piece.srcHeader i0) st →
      InvW (Piece.srcHeader i0) (Piece.srcFirst i0)
        (srcGroupsLoop ctx maxB gl idx st) := by
  intro gl
  induction gl with
  | nil =>
    intro idx st hle hlt
    simp only [List.length_nil] at hlt
    omega
  | cons sd rest ih =>
    intro idx st hle hlt h
    simp only [srcGroupsLoop]
    by_cases hit : idx = i0
    · subst hit
      apply srcGroupsLoop_invW ctx maxB (Or.inr ⟨idx, rfl⟩) rest (idx + 1) _
        (fun k hk => by simp only [ne_eq, Piece.srcHeader.injEq]; omega)
      exact srcGroupStep_establish ctx maxB sd idx st h
    · refine ih (idx + 1) _ (by omega) (by simp only [List.length_cons] at hlt; omega) ?_
      refine srcGroupStep_noW ctx maxB (Or.inr ⟨i0, rfl⟩) sd idx ?_ st h
      simp only [ne_eq, Piece.srcHeader.injEq]
      omega

theorem failedLoop_invW (ctx : Ctx) (maxB : Int) {W F : Piece}
    (hW : IsHeaderPiece W) :
    ∀ (ts : List String) (i : Nat) (st : PackSt), InvW W F st →
      InvW W F (failedLoop ctx maxB ts i st) := by
  intro ts
  induction ts with
  | nil => intro i st h; exact h
  | cons t ts ih =>
    intro i st h
    simp only [failedLoop]
    split
    · exact ih (i + 1) _ (invW_reseed h (headerPiece_ne_footer hW) _ rfl)
    · refine ih (i + 1) _ (invW_app h ?_ rfl)
      rcases hW with ⟨n, rfl⟩ | ⟨n, rfl⟩ <;> simp

/-- The stats section preserves the invariant for any src-heading piece
(or any heading piece it never writes). -/
theorem process_stats_invW (ctx : Ctx) (maxB : Int) {W F : Piece}
    (hW : IsHeaderPiece W) (hws : ∀ k, W ≠ Piece.wordHeader k) (st : PackSt)
    (h : InvW W F st) : InvW W F (process_stats_section ctx maxB st) := by
  unfold process_stats_section
  split
  · exact h
  · apply statsGroupsLoop_invW ctx maxB hW _ 0 _ (fun k _ => hws k)
    split
    · refine invW_app h ?_ rfl
      rcases hW with ⟨n, rfl⟩ | ⟨n, rfl⟩ <;> simp
    · exact invW_reseed h (headerPiece_ne_footer hW) _ rfl

theorem process_stats_noW (ctx : Ctx) (maxB : Int) {W : Piece}
    (hW : IsHeaderPiece W) (hws : ∀ k, W ≠ Piece.wordHeader k) (st : PackSt)
    (h : NoW W st) : NoW W (process_stats_section ctx maxB st) := by
  unfold process_stats_section
  split
  · exact h
  · apply statsGroupsLoop_noW ctx maxB hW _ 0 _ (fun k _ => hws k)
    split
    · refine noW_app h ?_ _
      rcases hW with ⟨n, rfl⟩ | ⟨n, rfl⟩ <;> simp
    · refine noW_reseed h ?_ (headerPiece_ne_footer hW) _
      rcases hW with ⟨n, rfl⟩ | ⟨n, rfl⟩ <;> simp

theorem process_stats_establish (ctx : Ctx) (maxB : Int) (i0 : Nat)
    (hi : i0 < ctx.rd.stats.length) (st : PackSt)
    (h : NoW (Piece.wordHeader i0) st) :
    InvW (Piece.wordHeader i0) (Piece.wordFirst i0)
      (process_stats_section ctx maxB st) := by
  unfold process_stats_section
  rw [if_neg (by
    simp only [List.isEmpty_iff]
    intro hnil
    rw [hnil] at hi
    simp at hi)]
  apply statsGroupsLoop_establish ctx maxB i0 ctx.rd.stats 0 _ (by omega)
    (by omega)
  split
  · exact noW_app h (by simp) _
  · exact noW_reseed h (by simp) (by simp) _

theorem process_new_titles_invW (ctx : Ctx) (maxB : Int) {W F : Piece}
    (hW : IsHeaderPiece W) (hns : ∀ k, W ≠ Piece.srcHeader k) (st : PackSt)
    (h : InvW W F st) : InvW W F (process_new_titles_section ctx maxB st) := by
  unfold process_new_titles_section
  split
  · exact h
  · apply srcGroupsLoop_invW ctx maxB hW _ 0 _ (fun k _ => hns k)
    split
    · exact invW_reseed h (headerPiece_ne_footer hW) _ rfl
    · refine invW_app h ?_ rfl
      rcases hW with ⟨n, rfl⟩ | ⟨n, rfl⟩ <;> simp

theorem process_new_titles_noW (ctx : Ctx) (maxB : Int) {W : Piece}
    (hW : IsHeaderPiece W) (hns : ∀ k, W ≠ Piece.srcHeader k) (st : PackSt)
    (h : NoW W st) : NoW W (process_new_titles_section ctx maxB st) := by
  unfold process_new_titles_section
  split
  · exact h
  · apply srcGroupsLoop_noW ctx maxB hW _ 0 _ (fun k _ => hns k)
    split
    · refine noW_reseed h ?_ (headerPiece_ne_footer hW) _
      rcases hW with ⟨n, rfl⟩ | ⟨n, rfl⟩ <;> simp
    · refine noW_app h ?_ _
      rcases hW with ⟨n, rfl⟩ | ⟨n, rfl⟩ <;> simp

theorem process_new_titles_establish (ctx : Ctx) (maxB : Int) (i0 : Nat)
    (hi : i0 < ctx.rd.new_titles.length) (st : PackSt)
    (h : NoW (Piece.srcHeader i0) st) :
    InvW (Piece.srcHeader i0) (Piece.srcFirst i0)
      (process_new_titles_section ctx maxB st) := by
  unfold process_new_titles_section
  rw [if_neg (by
    simp only [List.isEmpty_iff]
    intro hnil
    rw [hnil] at hi
    simp at hi)]
  apply srcGroupsLoop_establish ctx maxB i0 ctx.rd.new_titles 0 _ (by omega)
    (by omega)
  split
  · exact noW_reseed h (by simp) (by simp) _
  · exact noW_app h (by simp) _

theorem process_failed_invW (ctx : Ctx) (maxB : Int) {W F : Piece}
    (hW : IsHeaderPiece W) (st : PackSt) (h : InvW W F st) :
    InvW W F (process_failed_section ctx maxB st) := by
  unfold process_failed_section
  split
  · exact h
  · apply failedLoop_invW ctx maxB hW _ 0
    split
    · exact invW_reseed h (headerPiece_ne_footer hW) _ rfl
    · refine invW_app h ?_ rfl
      rcases hW with ⟨n, rfl⟩ | ⟨n, rfl⟩ <;> simp

theorem split_pieces_firstOk_stats (ctx : Ctx) (maxB : Int) (i0 : Nat)
    (hi : i0 < ctx.rd.stats.length) :
    firstOkP (Piece.wordHeader i0) (Piece.wordFirst i0) (split_pieces ctx maxB) := by
  simp only [split_pieces]
  split
  · rename_i hcond
    simp only [Bool.and_eq_true, List.isEmpty_iff] at hcond
    rw [hcond.1.1] at hi
    simp at hi
  · have hNoW0 : NoW (Piece.wordHeader i0)
        ⟨[Piece.baseHeader], false, []⟩ := by
      refine ⟨?_, by simp⟩
      intro b hb
      cases hb
    split
    · have h2 := process_failed_invW ctx maxB (Or.inl ⟨i0, rfl⟩) _
        (process_stats_establish ctx maxB i0 hi _
          (process_new_titles_noW ctx maxB (Or.inl ⟨i0, rfl⟩)
            (fun k => by simp) _ hNoW0))
      rw [if_pos h2.1]
      exact firstOkP_app_last h2.2.1 [Piece.footer] (by simp)
    · have h2 := process_failed_invW ctx maxB (Or.inl ⟨i0, rfl⟩) _
        (process_new_titles_invW ctx maxB (Or.inl ⟨i0, rfl⟩)
          (fun k => by simp) _
          (process_stats_establish ctx maxB i0 hi _ hNoW0))
      rw [if_pos h2.1]
      exact firstOkP_app_last h2.2.1 [Piece.footer] (by simp)

theorem split_pieces_firstOk_src (ctx : Ctx) (maxB : Int) (i0 : Nat)
    (hi : i0 < ctx.rd.new_titles.length) :
    firstOkP (Piece.srcHeader i0) (Piece.srcFirst i0) (split_pieces ctx maxB) := by
  simp only [split_pieces]
  split
  · rename_i hcond
    simp only [Bool.and_eq_true, List.isEmpty_iff] at hcond
    rw [hcond.1.2] at hi
    simp at hi
  · have hNoW0 : NoW (Piece.srcHeader i0)
        ⟨[Piece.baseHeader], false, []⟩ := by
      refine ⟨?_, by simp⟩
      intro b hb
      cases hb
    split
    · have h2 := process_failed_invW ctx maxB (Or.inr ⟨i0, rfl⟩) _
        (process_stats_invW ctx maxB (Or.inr ⟨i0, rfl⟩)
          (fun k => by simp) _
          (process_new_titles_establish ctx maxB i0 hi _ hNoW0))
      rw [if_pos h2.1]
      exact firstOkP_app_last h2.2.1 [Piece.footer] (by simp)
    · have h2 := process_failed_invW ctx maxB (Or.inr ⟨i0, rfl⟩) _
        (process_new_titles_establish ctx maxB i0 hi _
          (process_stats_noW ctx maxB (Or.inr ⟨i0, rfl⟩)
            (fun k => by simp) _ hNoW0))
      rw [if_pos h2.1]
      exact firstOkP_app_last h2.2.1 [Piece.footer] (by simp)

/-- C2: for every keyword group and every new-title source group carrying
at least one item, the first batch of `split_content_into_batches` (at
piece granularity, `split_pieces`) in which the group's heading appears
also contains the group's first formatted item: the heading is never left
as the last content of one batch with the first item deferred to the
next. -/
theorem heading_first_item_atomicity :
    ∀ (ctx : Ctx) (maxB : Int),
      (∀ i0, i0 < ctx.rd.stats.length →
        (ctx.rd.stats.getD i0 dStat).titles ≠ [] →
        ∀ k, k < (split_pieces ctx maxB).length →
          Piece.wordHeader i0 ∈ (split_pieces ctx maxB).getD k [] →
          (∀ m, m < k → Piece.wordHeader i0 ∉ (split_pieces ctx maxB).getD m []) →
          Piece.wordFirst i0 ∈ (split_pieces ctx maxB).getD k []) ∧
      (∀ i0, i0 < ctx.rd.new_titles.length →
        (ctx.rd.new_titles.getD i0 dSrc).titles ≠ [] →
        ∀ k, k < (split_pieces ctx maxB).length →
          Piece.srcHeader i0 ∈ (split_pieces ctx maxB).getD k [] →
          (∀ m, m < k → Piece.srcHeader i0 ∉ (split_pieces ctx maxB).getD m []) →
          Piece.srcFirst i0 ∈ (split_pieces ctx maxB).getD k []) := by
  intro ctx maxB
  constructor
  · intro i0 hi _ k hk hW hprev
    exact firstOkP_getD (split_pieces_firstOk_stats ctx maxB i0 hi) k hk hW hprev
  · intro i0 hi _ k hk hW hprev
    exact firstOkP_getD (split_pieces_firstOk_src ctx maxB i0 hi) k hk hW hprev

set_option maxRecDepth 8000 in
theorem heading_first_item_atomicity_witness :
    Piece.wordFirst 0 ∈ (split_pieces twoBatchCtx ((230 : Int) - 26)).getD 0 [] :=
  (heading_first_item_atomicity twoBatchCtx (230 - 26)).1 0 (by decide) (by decide)
    0 (by decide) (by decide) (fun m hm => absurd hm (by omega))

end TrendRadar
